import Mathlib

/-!
Verification development for the benchexec cgroups core
(`benchexec/cgroups.py` and `benchexec/cgroupsv1.py`).

The Python modules are shallowly embedded: pure fragments become Lean
functions, filesystem and process effects are modelled by explicit
environments (oracles describing what each read returns and whether each
write succeeds) together with event traces, and Python exceptions become
`Except`/`Option` results.
-/

namespace BenchExec

/-! ## Version detection (`cgroups.py`, `_get_cgroup_version`)

A mount-table line is modelled as its list of space-separated fields, as
produced by `mount.split(" ")` in the source.  Indexing `mount[2]` on a
line with fewer than three fields raises `IndexError` in Python, which is
not caught by the `except OSError` handler; this is modelled by the
`Except` error result.  An unreadable `/proc/mounts` (the `open` call
raising `OSError`) is modelled by the `none` input: the source logs the
exception and falls through to `return version` with `version = None`.
-/

def CGROUPS_V1 : Nat := 1

def CGROUPS_V2 : Nat := 2

/-- One iteration of the `for mount in mountsFile` loop body. -/
def versionStep (version : Option Nat) (mount : List String) : Except String (Option Nat) :=
  match mount[2]? with
  | none => Except.error "IndexError"
  | some t =>
    if t = "cgroup" then Except.ok (some CGROUPS_V1)
    else if t = "cgroup2" ∧ version ≠ some CGROUPS_V1 then Except.ok (some CGROUPS_V2)
    else Except.ok version

/-- The `for` loop of `_get_cgroup_version` over all mount lines. -/
def versionLoop (version : Option Nat) : List (List String) → Except String (Option Nat)
  | [] => Except.ok version
  | m :: ms => do versionLoop (← versionStep version m) ms

/-- `_get_cgroup_version`: `mounts = none` models `open("/proc/mounts")`
raising `OSError` (caught, logged, and `None` returned); `Except.error`
models an uncaught exception (the `BenchExecException` raised when no
version was detected, or an `IndexError` from a short line). -/
def getCgroupVersion (mounts : Option (List (List String))) : Except String (Option Nat) :=
  match mounts with
  | none => Except.ok none
  | some ms => do
    let v ← versionLoop none ms
    if v = none then Except.error "Could not detect Cgroup Version" else Except.ok v

/-! ## Own-group parsing (`cgroupsv1.py`, `_parse_proc_pid_cgroup`)

Each line `id:ctrl1,ctrl2:path` is stripped and split on `:`; the missing
path field (`ownCgroup[2]` raising `IndexError`) is re-raised as an
`IndexError` naming the split line, modelled by `Except.error`.
-/

/-- Python `str.split(sep)` for a one-character separator, on the
character list of the string (`"".split(":") == [""]`,
`"a:".split(":") == ["a", ""]`). -/
def pySplit (sep : Char) : List Char → List (List Char)
  | [] => [[]]
  | c :: cs =>
    let r := pySplit sep cs
    if c = sep then [] :: r
    else
      match r with
      | [] => [[c]]
      | g :: gs => (c :: g) :: gs

/-- Python `str.strip()`: remove leading and trailing whitespace. -/
def pyStrip (s : List Char) : List Char :=
  ((s.dropWhile Char.isWhitespace).reverse.dropWhile Char.isWhitespace).reverse

/-- Parse one line of a `/proc/*/cgroup` file into its (subsystem, path)
pairs, as the generator body of `_parse_proc_pid_cgroup` does: strip the
line, split on `:`, take the path from field 2 with its leading `/`
removed, and yield one pair per comma-separated name in field 1.  The
`IndexError` raised for a missing path field carries the split line. -/
def parseProcPidCgroupLine (line : List Char) : Except String (List (String × String)) :=
  let ownCgroup := pySplit ':' (pyStrip line)
  match ownCgroup.get? 2 with
  | none => Except.error ("index out of range for " ++ toString (ownCgroup.map String.mk))
  | some f2 =>
    let path := String.mk (f2.drop 1)
    match ownCgroup.get? 1 with
    | none => Except.error "index 1 out of range"
    | some f1 => Except.ok ((pySplit ',' f1).map (fun s => (String.mk s, path)))

/-- `_parse_proc_pid_cgroup` over all lines of the file, fully evaluated
(the Python generator is consumed eagerly by its callers via `dict(...)`):
the first malformed line aborts parsing with its error. -/
def parseProcPidCgroup : List (List Char) → Except String (List (String × String))
  | [] => Except.ok []
  | l :: ls => do
    let ps ← parseProcPidCgroupLine l
    let rest ← parseProcPidCgroup ls
    Except.ok (ps ++ rest)

/-! ## `has_tasks` and `_remove_cgroup`

`CgroupsV1.has_tasks(path)` is `bool((path / "cgroup.procs").read_bytes().strip())`.
`Cgroups._remove_cgroup(path)` checks existence, asserts emptiness via
`has_tasks`, and calls `os.rmdir` with one retry.  The filesystem is an
explicit environment; the outcome records which control path was taken
and how many `rmdir` calls were attempted.
-/

/-- `CgroupsV1.has_tasks`, applied to the content of the group's
`cgroup.procs` file: non-empty after stripping whitespace. -/
def hasTasksContent (procs : List Char) : Bool := pyStrip procs ≠ []

/-- Environment for one `_remove_cgroup` call: whether the path exists,
the content of its `cgroup.procs` file (`none` = the file itself is
missing, so the read raises), and the errno of each of the two possible
`os.rmdir` attempts (`none` = success). -/
structure RmEnv where
  pathExists : Bool
  procs : Option (List Char)
  rmdirErr1 : Option Nat
  rmdirErr2 : Option Nat
deriving DecidableEq, Repr

inductive RmOutcome
  /-- Path missing: a warning is logged and the call returns normally. -/
  | skippedMissing
  /-- `cgroup.procs` could not be read: the `OSError` propagates out of
  `assert not self.has_tasks(path)`. -/
  | readError
  /-- `has_tasks` returned true: `AssertionError`, no `rmdir` attempted. -/
  | assertFailed
  /-- `os.rmdir` succeeded (on the first or the second attempt). -/
  | removed
  /-- Both `rmdir` attempts failed: the second error is logged as a
  warning and swallowed (normal return). -/
  | failedLogged (errno : Nat)
deriving DecidableEq, Repr

/-- `Cgroups._remove_cgroup`: outcome together with the number of
`os.rmdir` calls made. -/
def removeCgroup (env : RmEnv) : RmOutcome × Nat :=
  if ¬ env.pathExists then (RmOutcome.skippedMissing, 0)
  else
    match env.procs with
    | none => (RmOutcome.readError, 0)
    | some content =>
      if hasTasksContent content then (RmOutcome.assertFailed, 0)
      else
        match env.rmdirErr1 with
        | none => (RmOutcome.removed, 1)
        | some _ =>
          match env.rmdirErr2 with
          | none => (RmOutcome.removed, 2)
          | some e => (RmOutcome.failedLogged e, 2)

/-! ## `write_memory_limit` (`cgroupsv1.py`)

Environment: whether the `memory.memsw.limit_in_bytes` file exists
(`has_value`), whether the host has swap (`systeminfo.has_swap()`), and
the errno raised by each of the two `set_value` writes (`none` =
success).  `sys.exit(msg)` and a propagating `OSError` are distinct
outcomes.
-/

def EACCES : Nat := 13

def ENOTSUP : Nat := 95

def swapMissingMsg : String :=
  "Kernel misses feature for accounting swap memory, but machine has swap."

def swapRejectedMsg : String :=
  "Memory limit specified, but kernel does not allow limiting swap memory."

structure MemEnv where
  /-- `self.has_value(self.MEMORY, "memsw.limit_in_bytes")` -/
  swapFilePresent : Bool
  /-- `systeminfo.has_swap()` -/
  hasSwap : Bool
  /-- errno of `set_value(MEMORY, "limit_in_bytes", limit)`, `none` = ok -/
  limitWriteErr : Option Nat
  /-- errno of `set_value(MEMORY, "memsw.limit_in_bytes", limit)` -/
  swapWriteErr : Option Nat
deriving DecidableEq, Repr

inductive MemOutcome
  /-- Normal return; the successive (file, value) writes performed. -/
  | ok (writes : List (String × Nat))
  /-- `sys.exit(msg)` -/
  | exited (msg : String)
  /-- an uncaught `OSError` with this errno propagates to the caller -/
  | raised (errno : Nat)
deriving DecidableEq, Repr

/-- `CgroupsV1.write_memory_limit`. -/
def writeMemoryLimit (env : MemEnv) (limit : Nat) : MemOutcome :=
  match env.limitWriteErr with
  | some e => MemOutcome.raised e
  | none =>
    if ¬ env.swapFilePresent then
      if env.hasSwap then MemOutcome.exited swapMissingMsg
      else MemOutcome.ok [("memory.limit_in_bytes", limit)]
    else
      match env.swapWriteErr with
      | none =>
        MemOutcome.ok [("memory.limit_in_bytes", limit), ("memory.memsw.limit_in_bytes", limit)]
      | some e =>
        if e = ENOTSUP then MemOutcome.exited swapRejectedMsg else MemOutcome.raised e

/-! ## `Cgroups` mutable state: `__init__` and `require_subsystem`

`self.subsystems` (a dict) is an association list with unique keys,
`self.paths` (a set) is the deduplicated value list, `self.unusable_subsystems`
(a set) a list used up to membership, `self.denied_subsystems` (a dict)
an association list.  The `create_fresh_child_cgroup` / `remove` probe
inside `require_subsystem` is an oracle `probe` giving the errno of the
`OSError` it raises, if any.
-/

structure CgState where
  subsystems : List (String × String)
  paths : List String
  unusable : List String
  denied : List (String × String)
deriving DecidableEq, Repr

/-- `set(self.subsystems.values())`: the distinct values of the mapping. -/
def pathsOf (m : List (String × String)) : List String := (m.map Prod.snd).dedup

/-- Python dict assignment `d[k] = v`. -/
def dictInsert (k v : String) (d : List (String × String)) : List (String × String) :=
  (k, v) :: d.filter (fun kv => kv.1 ≠ k)

/-- `Cgroups.__init__`: asserts that every path value is truthy
(non-empty), stores the mapping, derives `paths`, and starts with empty
error bookkeeping.  `none` models the failed assertion. -/
def cgInit (m : List (String × String)) : Option CgState :=
  if m.all (fun kv => kv.2 ≠ "") then
    some { subsystems := m, paths := pathsOf m, unusable := [], denied := [] }
  else none

/-- `Cgroups.require_subsystem`: returns the boolean result, the state
after the call, and whether `log_method` was invoked. -/
def requireSubsystem (probe : String → Option Nat) (st : CgState) (sub : String) :
    Bool × CgState × Bool :=
  match st.subsystems.lookup sub with
  | none =>
    if sub ∈ st.unusable then (false, st, false)
    else (false, { st with unusable := st.unusable.insert sub }, true)
  | some path =>
    match probe sub with
    | none => (true, st, false)
    | some e =>
      let subsystems2 := st.subsystems.filter (fun kv => kv.1 ≠ sub)
      (false,
        { subsystems := subsystems2
          paths := pathsOf subsystems2
          unusable := st.unusable.insert sub
          denied := if e = EACCES then dictInsert sub path st.denied else st.denied },
        true)

/-- The data-model invariant of a live `Cgroups` instance: non-empty
paths in the mapping, unusable controllers absent from the mapping, and
`paths` equal to the recomputed distinct values of the mapping. -/
def CgInv (st : CgState) : Prop :=
  (∀ kv ∈ st.subsystems, kv.2 ≠ "") ∧
  (∀ s ∈ st.unusable, st.subsystems.lookup s = none) ∧
  st.paths = pathsOf st.subsystems

/-! ## `CgroupsV1.create_fresh_child_cgroup`

`tempfile.mkdtemp(prefix=..., dir=parent)` is modelled by a counter-based
fresh-name source (each call yields a directory that did not exist
before).  The `cpuset.cpus` / `cpuset.mems` inheritance copies are
modelled by a `CopyEnv` saying whether each copy from a given parent
succeeds; a failed first copy skips the second (the `except OSError`
around both), and failures never influence the result.
-/

structure CopyEnv where
  cpusOk : String → Bool
  memsOk : String → Bool

structure CreateAcc where
  /-- `createdCgroupsPerSubsystem` (insertion order) -/
  perSubsystem : List (String × String)
  /-- `createdCgroupsPerParent` (insertion order) -/
  perParent : List (String × String)
  /-- successfully copied attribute files, as (child, filename) -/
  copied : List (String × String)
  /-- fresh-name counter for `mkdtemp` -/
  counter : Nat
deriving Repr

def freshChildName (n : Nat) : String := "benchmark_" ++ toString n

/-- The files actually copied for one freshly created child: `cpuset.cpus`
first; `cpuset.mems` only if the first copy did not raise. -/
def copyAttempts (env : CopyEnv) (parent child : String) : List (String × String) :=
  if env.cpusOk parent then
    (child, "cpuset.cpus") :: (if env.memsOk parent then [(child, "cpuset.mems")] else [])
  else []

/-- One iteration of the `for subsystem in subsystems` loop.  The two
dicts are association lists with unique keys; dict insertion is modelled
by head insertion (lookup-equivalent, since an inserted key is new). -/
def createFreshStep (env : CopyEnv) (parentMap : List (String × String))
    (acc : CreateAcc) (sub : String) : Option CreateAcc :=
  match parentMap.lookup sub with
  | none => none
  | some parent =>
    match acc.perParent.lookup parent with
    | some child => some { acc with perSubsystem := (sub, child) :: acc.perSubsystem }
    | none =>
      let child := parent ++ "/" ++ freshChildName acc.counter
      some { perSubsystem := (sub, child) :: acc.perSubsystem
             perParent := (parent, child) :: acc.perParent
             copied := copyAttempts env parent child ++ acc.copied
             counter := acc.counter + 1 }

def createFreshGo (env : CopyEnv) (parentMap : List (String × String)) :
    List String → CreateAcc → Option CreateAcc
  | [], acc => some acc
  | s :: ss, acc => do createFreshGo env parentMap ss (← createFreshStep env parentMap acc s)

/-- `CgroupsV1.create_fresh_child_cgroup`: `none` models the failed
precondition assertion `set(subsystems).issubset(self.subsystems.keys())`.
The created directories, in creation order, are the values of
`perParent`. -/
def createFreshChildCgroup (env : CopyEnv) (parentMap : List (String × String))
    (subsystems : List String) : Option CreateAcc :=
  if subsystems.all (fun s => (parentMap.lookup s).isSome) then
    createFreshGo env parentMap subsystems
      { perSubsystem := [], perParent := [], copied := [], counter := 0 }
  else none

/-! ## `kill_all_tasks` (`cgroupsv1.py`)

The effectful kill algorithm is embedded as a trace semantics.  A cgroup
directory tree (the snapshot `os.walk` traverses) is a rose tree whose
nodes carry their absolute paths.  Reading a `tasks` file is an oracle:
for each directory, successive reads within one
`_kill_all_tasks_in_cgroup` call are indexed by a counter (`missing`
models `FileNotFoundError`).  All observable actions (signals, sleeps,
log messages, freezer writes, `_remove_cgroup` invocations) are events.
-/

abbrev DirPath := List String

inductive Sig
  | kill
  | intr
  | term
deriving DecidableEq, Repr

/-- `[signal.SIGKILL, signal.SIGINT, signal.SIGTERM]` -/
def sigOrder : List Sig := [Sig.kill, Sig.intr, Sig.term]

inductive ReadRes
  | missing
  | pids (l : List Nat)
deriving DecidableEq, Repr

inductive Event
  /-- `util.kill_process(pid, sig)` for a pid read from `path/tasks` -/
  | signal (path : DirPath) (pid : Nat) (s : Sig)
  /-- `time.sleep(i * 0.5)`; the payload is the duration in time units -/
  | sleep (duration : ℚ)
  /-- the `FileNotFoundError` warning for a vanished `tasks` file -/
  | logMissingTasks (path : DirPath)
  /-- the left-over-process warning emitted for tries `i > 1` -/
  | logLeftOver (path : DirPath) (pid : Nat)
  /-- `util.write_file(value, freezer_file)` -/
  | writeFreezer (value : String)
  /-- invocation of `self._remove_cgroup(path)` (behaviour of the helper
  itself is modelled separately by `removeCgroup`) -/
  | removeCall (path : DirPath)
deriving DecidableEq, Repr

/-- The `for sig in [...]` inner loop of `_kill_all_tasks_in_cgroup`,
during try number `i`, with `k` counting reads of the `tasks` file so
far.  Returns the events emitted, the next read index, and whether the
function returned inside this loop. -/
def killInner (path : DirPath) (reads : Nat → ReadRes) (ensureEmpty : Bool) (i : Nat) :
    List Sig → Nat → List Event × Nat × Bool
  | [], k => ([], k, false)
  | sg :: rest, k =>
    match reads k with
    | ReadRes.missing => ([Event.logMissingTasks path], k + 1, true)
    | ReadRes.pids [] => ([], k + 1, true)
    | ReadRes.pids l =>
      let evs := l.flatMap (fun p =>
        (if 1 < i then [Event.logLeftOver path p] else []) ++ [Event.signal path p sg])
      if ensureEmpty then
        match killInner path reads ensureEmpty i rest (k + 1) with
        | (evs2, k2, r) => (evs ++ Event.sleep ((i : ℚ) * (1 / 2)) :: evs2, k2, r)
      else (evs, k + 1, true)

/-- The `while True` outer loop of `_kill_all_tasks_in_cgroup`, with
fuel bounding the number of tries; `none` means the fuel ran out before
the loop returned. -/
def killOuter (path : DirPath) (reads : Nat → ReadRes) (ensureEmpty : Bool) :
    Nat → Nat → Nat → Option (List Event)
  | 0, _, _ => none
  | fuel + 1, i, k =>
    match killInner path reads ensureEmpty i sigOrder k with
    | (evs, k2, r) =>
      if r then some evs
      else Option.map (fun rest => evs ++ rest) (killOuter path reads ensureEmpty fuel (i + 1) k2)

/-- `_kill_all_tasks_in_cgroup(cgroup, ensure_empty)`. -/
def killAllTasksInCgroup (path : DirPath) (reads : Nat → ReadRes) (ensureEmpty : Bool)
    (fuel : Nat) : Option (List Event) :=
  killOuter path reads ensureEmpty fuel 1 0

/-! ### The directory tree and `os.walk(cgroup, topdown=False)` -/

inductive Tree
  | node (path : DirPath) (children : List Tree)

def Tree.path : Tree → DirPath
  | .node p _ => p

def Tree.children : Tree → List Tree
  | .node _ cs => cs

mutual

/-- The sub-cgroup directories in the order the
`for dirpath, dirs, _files in os.walk(cgroup, topdown=False)` loop
processes them (each walk entry contributes the children of its
directory; entries are produced bottom-up). -/
def procOrder : Tree → List DirPath
  | .node _ cs => procOrderOfChildren cs ++ cs.map Tree.path

def procOrderOfChildren : List Tree → List DirPath
  | [] => []
  | c :: cs => procOrder c ++ procOrderOfChildren cs

end

mutual

/-- All directory paths of the tree (root included). -/
def allPaths : Tree → List DirPath
  | .node p cs => p :: allPathsOfChildren cs

def allPathsOfChildren : List Tree → List DirPath
  | [] => []
  | c :: cs => allPaths c ++ allPathsOfChildren cs

end

/-- The `for subCgroup in dirs` body over all walked sub-directories:
kill the tasks of each, and `_remove_cgroup` it when `delete` is set. -/
def dirsKillTrace (reads : DirPath → Nat → ReadRes) (delete : Bool) (fuel : Nat) :
    List DirPath → Option (List Event)
  | [] => some []
  | d :: ds => do
    let evs ← killAllTasksInCgroup d (reads d) delete fuel
    let rest ← dirsKillTrace reads delete fuel ds
    some (evs ++ (if delete then [Event.removeCall d] else []) ++ rest)

/-- `kill_all_tasks_in_cgroup_recursively(cgroup, delete)`: walk all
descendant directories bottom-up, then kill the tasks of the top-level
group itself (which is never removed here). -/
def recursiveKillTrace (reads : DirPath → Nat → ReadRes) (delete : Bool) (fuel : Nat)
    (t : Tree) : Option (List Event) := do
  let ds ← dirsKillTrace reads delete fuel (procOrder t)
  let root ← killAllTasksInCgroup t.path (reads t.path) delete fuel
  some (ds ++ root)

/-- Environment of one `kill_all_tasks` invocation: the freezer path if
the freezer subsystem is present (`self.subsystems[self.FREEZE]`), the
iteration order of `self.paths`, the directory tree below each path, and
the `tasks`-file read oracles of the two phases. -/
structure KillEnv where
  freezer : Option DirPath
  hierPaths : List DirPath
  tree : DirPath → Tree
  reads1 : DirPath → ReadRes
  reads2 : DirPath → Nat → ReadRes

/-- Phase 1 of `kill_all_tasks`: only if the freezer subsystem is
present, freeze, kill everything once without requiring emptiness
(`delete=False`), thaw. -/
def phase1 (env : KillEnv) (fuel : Nat) : Option (List Event) :=
  match env.freezer with
  | none => some []
  | some fp =>
    Option.map
      (fun tr => Event.writeFreezer "FROZEN" :: tr ++ [Event.writeFreezer "THAWED"])
      (recursiveKillTrace (fun p _ => env.reads1 p) false fuel (env.tree fp))

/-- Phase 2 of `kill_all_tasks`: the `for cgroup in self.paths` loop,
killing with `delete=True` in every hierarchy. -/
def phase2Go (env : KillEnv) (fuel : Nat) : List DirPath → Option (List Event)
  | [] => some []
  | r :: rs => do
    let tr ← recursiveKillTrace env.reads2 true fuel (env.tree r)
    let rest ← phase2Go env fuel rs
    some (tr ++ rest)

def phase2 (env : KillEnv) (fuel : Nat) : Option (List Event) :=
  phase2Go env fuel env.hierPaths

/-- `CgroupsV1.kill_all_tasks`. -/
def killAllTasks (env : KillEnv) (fuel : Nat) : Option (List Event) := do
  let p1 ← phase1 env fuel
  let p2 ← phase2 env fuel
  some (p1 ++ p2)

/-! ### Closed forms of the traces

The following definitions are not translations of further source code:
they are the closed forms that the theorems below prove equal to the
traces of the embedded functions, under explicit termination data
(`stop d` = index of the first read of `d/tasks` that comes back empty
or missing).
-/

/-- Signal used by the `m`-th read: reads cycle `SIGKILL, SIGINT, SIGTERM`. -/
def sigOf (m : Nat) : Sig := sigOrder.getD (m % 3) Sig.kill

/-- Try counter `i` in force at the `m`-th read: three reads per try. -/
def tryOf (m : Nat) : Nat := m / 3 + 1

/-- One non-final pass of the `ensure_empty` loop: warn about left-over
processes on tries after the first, signal every pid found, then sleep
`i * 0.5` time units. -/
def passFormula (path : DirPath) (reads : Nat → ReadRes) (m : Nat) : List Event :=
  match reads m with
  | ReadRes.missing => []
  | ReadRes.pids l =>
    l.flatMap (fun p =>
      (if 1 < tryOf m then [Event.logLeftOver path p] else []) ++
        [Event.signal path p (sigOf m)]) ++
      [Event.sleep ((tryOf m : ℚ) * (1 / 2))]

/-- The final pass: a vanished `tasks` file is logged; an empty read
produces nothing; either way the loop stops without sleeping. -/
def finalFormula (path : DirPath) (reads : Nat → ReadRes) (n : Nat) : List Event :=
  match reads n with
  | ReadRes.missing => [Event.logMissingTasks path]
  | ReadRes.pids _ => []

/-- Full trace of `_kill_all_tasks_in_cgroup(path, ensure_empty=True)`
whose first empty-or-missing read is the `n`-th. -/
def loopFormula (path : DirPath) (reads : Nat → ReadRes) (n : Nat) : List Event :=
  ((List.range n).map (passFormula path reads)).flatten ++ finalFormula path reads n

/-- A read result that makes the loop stop: file gone, or zero pids. -/
def Terminal (r : ReadRes) : Prop := r = ReadRes.missing ∨ r = ReadRes.pids []

/-- Trace of `_kill_all_tasks_in_cgroup(path, ensure_empty=False)`:
a single pass sending only `SIGKILL`, with no emptiness requirement. -/
def freezeFormula (path : DirPath) (r : ReadRes) : List Event :=
  match r with
  | ReadRes.missing => [Event.logMissingTasks path]
  | ReadRes.pids l => l.map (fun p => Event.signal path p Sig.kill)

/-- Closed form of one phase-2 hierarchy: every descendant bottom-up,
each killed until an empty pass and then removed, finally the top-level
group killed until an empty pass but not removed. -/
def hierFormula (reads : DirPath → Nat → ReadRes) (stop : DirPath → Nat) (t : Tree) :
    List Event :=
  ((procOrder t).map
    (fun d => loopFormula d (reads d) (stop d) ++ [Event.removeCall d])).flatten ++
    loopFormula t.path (reads t.path) (stop t.path)

/-- Closed form of the phase-1 walk: every descendant bottom-up then the
top-level group, one `SIGKILL`-only pass each, nothing removed. -/
def phase1Formula (reads1 : DirPath → ReadRes) (t : Tree) : List Event :=
  ((procOrder t).map (fun d => freezeFormula d (reads1 d))).flatten ++
    freezeFormula t.path (reads1 t.path)

/-! ### Bottom-up ordering -/

/-- `x` occurs (at least once) strictly before an occurrence of `y`. -/
def Precedes (order : List DirPath) (x y : DirPath) : Prop :=
  List.Sublist [x, y] order

mutual

/-- All subtrees of a tree, the tree itself included. -/
def subtreesList : Tree → List Tree
  | .node p cs => Tree.node p cs :: subtreesOfChildren cs

def subtreesOfChildren : List Tree → List Tree
  | [] => []
  | c :: cs => subtreesList c ++ subtreesOfChildren cs

end

/-- Paths of the strict descendants of a tree. -/
def strictDescPaths (t : Tree) : List DirPath :=
  (t.children.map allPaths).flatten

/-- `order` processes every group after all groups below it: for every
subtree, each strict-descendant path occurs before that subtree's own
path. -/
def BottomUp (order : List DirPath) (t : Tree) : Prop :=
  ∀ s ∈ subtreesList t, ∀ d ∈ strictDescPaths s, Precedes order d s.path

/-! ## Theorems -/

theorem exceptOkBind {ε α β : Type} (a : α) (f : α → Except ε β) :
    (Except.ok a >>= f : Except ε β) = f a := rfl

theorem versionLoop_cons (v : Option Nat) (m : List String) (rest : List (List String)) :
    versionLoop v (m :: rest) = versionStep v m >>= fun x => versionLoop x rest := rfl

theorem versionStep_some (v : Option Nat) (t : String) (m : List String)
    (ht : m[2]? = some t) :
    versionStep v m =
      (if t = "cgroup" then Except.ok (some CGROUPS_V1)
       else if t = "cgroup2" ∧ v ≠ some CGROUPS_V1 then Except.ok (some CGROUPS_V2)
       else Except.ok v) := by
  unfold versionStep
  rw [ht]

theorem getCgroupVersion_some (ms : List (List String)) :
    getCgroupVersion (some ms) = versionLoop none ms >>= fun v =>
      if v = none then Except.error "Could not detect Cgroup Version" else Except.ok v := rfl

theorem versionLoop_eq (ms : List (List String)) :
    ∀ v : Option Nat, (∀ m ∈ ms, m[2]?.isSome) →
    versionLoop v ms = Except.ok (
      if (∃ m ∈ ms, m[2]? = some "cgroup") ∨ v = some CGROUPS_V1 then some CGROUPS_V1
      else if ∃ m ∈ ms, m[2]? = some "cgroup2" then some CGROUPS_V2
      else v) := by
  induction ms with
  | nil =>
    intro v _
    by_cases hv : v = some CGROUPS_V1 <;> simp [versionLoop, hv]
  | cons m rest ih =>
    intro v h
    have hm : m[2]?.isSome := h m (List.mem_cons_self m rest)
    obtain ⟨t, ht⟩ := Option.isSome_iff_exists.mp hm
    have hrest : ∀ x ∈ rest, (x[2]?).isSome := fun x hx => h x (List.mem_cons_of_mem m hx)
    by_cases h1 : t = "cgroup"
    · subst h1
      have hstep : versionStep v m = Except.ok (some CGROUPS_V1) := by
        rw [versionStep_some v "cgroup" m ht]
        simp
      rw [versionLoop_cons, hstep, exceptOkBind, ih _ hrest]
      simp [List.exists_mem_cons_iff, ht]
    · by_cases h2 : t = "cgroup2" ∧ v ≠ some CGROUPS_V1
      · obtain ⟨h2t, h2v⟩ := h2
        subst h2t
        have hstep : versionStep v m = Except.ok (some CGROUPS_V2) := by
          rw [versionStep_some v "cgroup2" m ht]
          simp [h2v]
        rw [versionLoop_cons, hstep, exceptOkBind, ih _ hrest]
        have hne : m[2]? ≠ some "cgroup" := by
          rw [ht]
          simp
        have h2v1 : ¬ ((some CGROUPS_V2 : Option Nat) = some CGROUPS_V1) := by
          simp [CGROUPS_V1, CGROUPS_V2]
        by_cases hc : ∃ x ∈ rest, x[2]? = some "cgroup"
        · simp [ht, hc, List.exists_mem_cons_iff, hne, h2v, h2v1]
        · simp [ht, hc, List.exists_mem_cons_iff, hne, h2v, h2v1]
      · have hstep : versionStep v m = Except.ok v := by
          rw [versionStep_some v t m ht, if_neg h1, if_neg h2]
        rw [versionLoop_cons, hstep, exceptOkBind, ih _ hrest]
        rcases not_and_or.mp h2 with h2t | h2v
        · have hne1 : m[2]? ≠ some "cgroup" := by
            rw [ht]
            simpa using h1
          have hne2 : m[2]? ≠ some "cgroup2" := by
            rw [ht]
            simpa using h2t
          simp [List.exists_mem_cons_iff, hne1, hne2]
        · have hv : v = some CGROUPS_V1 := not_not.mp h2v
          simp [hv]

/-- C4: version detection returns GEN1 for mount tables whose (well-formed)
entries are all of type `cgroup`, GEN2 when all are `cgroup2`, GEN1 when
both types occur regardless of order, and raises the configuration error
when neither type occurs.  The final conjunct is the amended part: when
the mount table cannot be read, the exception is logged and the unknown
result `none` is returned instead of a configuration error. -/
theorem C4_version_detection :
    (∀ ms : List (List String), (∀ m ∈ ms, m[2]?.isSome) → ms ≠ [] →
      (∀ m ∈ ms, m[2]? = some "cgroup") →
      getCgroupVersion (some ms) = Except.ok (some CGROUPS_V1)) ∧
    (∀ ms : List (List String), (∀ m ∈ ms, m[2]?.isSome) → ms ≠ [] →
      (∀ m ∈ ms, m[2]? = some "cgroup2") →
      getCgroupVersion (some ms) = Except.ok (some CGROUPS_V2)) ∧
    (∀ ms : List (List String), (∀ m ∈ ms, m[2]?.isSome) →
      (∃ m ∈ ms, m[2]? = some "cgroup") → (∃ m ∈ ms, m[2]? = some "cgroup2") →
      getCgroupVersion (some ms) = Except.ok (some CGROUPS_V1)) ∧
    (∀ ms : List (List String), (∀ m ∈ ms, m[2]?.isSome) →
      (∀ m ∈ ms, m[2]? ≠ some "cgroup" ∧ m[2]? ≠ some "cgroup2") →
      getCgroupVersion (some ms) = Except.error "Could not detect Cgroup Version") ∧
    getCgroupVersion none = Except.ok none := by
  refine ⟨?_, ?_, ?_, ?_, rfl⟩
  · intro ms h hne hall
    have hex : ∃ m ∈ ms, m[2]? = some "cgroup" := by
      obtain ⟨m, hm⟩ := List.exists_mem_of_ne_nil ms hne
      exact ⟨m, hm, hall m hm⟩
    rw [getCgroupVersion_some, versionLoop_eq ms none h]
    simp [exceptOkBind, hex, CGROUPS_V1]
  · intro ms h hne hall
    have hex : ∃ m ∈ ms, m[2]? = some "cgroup2" := by
      obtain ⟨m, hm⟩ := List.exists_mem_of_ne_nil ms hne
      exact ⟨m, hm, hall m hm⟩
    have hnc : ¬ ∃ m ∈ ms, m[2]? = some "cgroup" := by
      rintro ⟨m, hm, hc⟩
      have := hall m hm
      rw [this] at hc
      exact absurd (Option.some.inj hc) (by decide)
    rw [getCgroupVersion_some, versionLoop_eq ms none h]
    simp [exceptOkBind, hnc, hex, CGROUPS_V1, CGROUPS_V2]
  · intro ms h hex _
    rw [getCgroupVersion_some, versionLoop_eq ms none h]
    simp [exceptOkBind, hex, CGROUPS_V1]
  · intro ms h hnone
    have h1 : ¬ ∃ m ∈ ms, m[2]? = some "cgroup" := by
      rintro ⟨m, hm, hc⟩
      exact (hnone m hm).1 hc
    have h2 : ¬ (∃ m ∈ ms, m[2]? = some "cgroup2") := by
      rintro ⟨m, hm, hc⟩
      exact (hnone m hm).2 hc
    rw [getCgroupVersion_some, versionLoop_eq ms none h]
    simp [exceptOkBind, h1, h2]

/-- C4 counterexample: an unreadable mount table does not fail with a
configuration error; the `OSError` is caught and `None` is returned. -/
theorem C4_counterexample_unreadable :
    getCgroupVersion none = Except.ok none ∧ (getCgroupVersion none).isOk = true := by
  exact ⟨rfl, rfl⟩

/-- Witness instantiating every hypothesised conjunct of
`C4_version_detection` at concrete mount tables. -/
theorem C4_witness :
    getCgroupVersion (some [["dev", "mnt", "cgroup", "opts"]]) = Except.ok (some CGROUPS_V1) ∧
    getCgroupVersion (some [["dev", "mnt", "cgroup2", "opts"]]) = Except.ok (some CGROUPS_V2) ∧
    getCgroupVersion (some [["dev", "mnt", "cgroup2", "opts"], ["dev", "mnt", "cgroup", "opts"]]) =
      Except.ok (some CGROUPS_V1) ∧
    getCgroupVersion (some [["dev", "mnt", "ext4", "opts"]]) =
      Except.error "Could not detect Cgroup Version" := by
  refine ⟨?_, ?_, ?_, ?_⟩
  · exact C4_version_detection.1 _ (by decide) (by decide) (by decide)
  · exact C4_version_detection.2.1 _ (by decide) (by decide) (by decide)
  · exact C4_version_detection.2.2.1 _ (by decide) (by decide) (by decide)
  · exact C4_version_detection.2.2.2.1 _ (by decide) (by decide)

theorem exceptErrorBind {ε α β : Type} (e : ε) (f : α → Except ε β) :
    (Except.error e >>= f : Except ε β) = Except.error e := rfl

/-- C9: parsing the own-group line `4:memory,cpu:/a/b` yields exactly
`(memory, "a/b")` and `(cpu, "a/b")` — one pair per listed controller,
hierarchy id dropped, leading `/` stripped — and any line whose split
form misses the path field (fewer than three `:`-separated fields) makes
the whole parse fail with an `IndexError` naming the split line content,
regardless of the remaining input, rather than being skipped. -/
theorem C9_own_group_parsing :
    parseProcPidCgroup ["4:memory,cpu:/a/b".data] =
      Except.ok [("memory", "a/b"), ("cpu", "a/b")] ∧
    (∀ line rest, (pySplit ':' (pyStrip line)).length < 3 →
      parseProcPidCgroup (line :: rest) =
        Except.error ("index out of range for " ++
          toString ((pySplit ':' (pyStrip line)).map String.mk))) := by
  constructor
  · rfl
  · intro line rest hlen
    have hget : (pySplit ':' (pyStrip line)).get? 2 = none := by
      rw [List.get?_eq_none]
      omega
    have hline : parseProcPidCgroupLine line =
        Except.error ("index out of range for " ++
          toString ((pySplit ':' (pyStrip line)).map String.mk)) := by
      simp only [parseProcPidCgroupLine, hget]
    show parseProcPidCgroupLine line >>= _ = _
    rw [hline, exceptErrorBind]

/-- Witness for the hypothesised part of `C9_own_group_parsing`: the
line `4:memory` (no path field) aborts parsing with the naming error. -/
theorem C9_witness :
    parseProcPidCgroup ["4:memory".data] =
      Except.error ("index out of range for " ++ toString ["4", "memory"]) := by
  have h := C9_own_group_parsing.2 "4:memory".data [] (by decide)
  have heq : (pySplit ':' (pyStrip "4:memory".data)).map String.mk = ["4", "memory"] := by
    decide
  rw [h, heq]

/-- C8: `write_memory_limit` writes the limit to the primary limit file
and then to the swap-inclusive limit file; an absent swap-inclusive file
with swap configured terminates with the swap-accounting remediation
message; the same absence without swap is silently tolerated (only the
primary write happens); a present file whose write the kernel rejects as
unsupported (`ENOTSUP`) likewise terminates with remediation
instructions; any other failure of that write propagates as the raised
error. -/
theorem C8_write_memory_limit (env : MemEnv) (limit : Nat) :
    (env.limitWriteErr = none → env.swapFilePresent = true → env.swapWriteErr = none →
      writeMemoryLimit env limit =
        MemOutcome.ok [("memory.limit_in_bytes", limit), ("memory.memsw.limit_in_bytes", limit)]) ∧
    (env.limitWriteErr = none → env.swapFilePresent = false → env.hasSwap = true →
      writeMemoryLimit env limit = MemOutcome.exited swapMissingMsg) ∧
    (env.limitWriteErr = none → env.swapFilePresent = false → env.hasSwap = false →
      writeMemoryLimit env limit = MemOutcome.ok [("memory.limit_in_bytes", limit)]) ∧
    (env.limitWriteErr = none → env.swapFilePresent = true → env.swapWriteErr = some ENOTSUP →
      writeMemoryLimit env limit = MemOutcome.exited swapRejectedMsg) ∧
    (∀ e, env.limitWriteErr = none → env.swapFilePresent = true → env.swapWriteErr = some e →
      e ≠ ENOTSUP → writeMemoryLimit env limit = MemOutcome.raised e) := by
  obtain ⟨sfp, hsw, lwe, swe⟩ := env
  refine ⟨?_, ?_, ?_, ?_, ?_⟩ <;> simp only [] <;> intros <;> subst_vars <;>
    simp_all [writeMemoryLimit]

/-- Witness for `C8_write_memory_limit`, exercising all five branches at
concrete environments. -/
theorem C8_witness :
    writeMemoryLimit ⟨true, true, none, none⟩ 7 =
      MemOutcome.ok [("memory.limit_in_bytes", 7), ("memory.memsw.limit_in_bytes", 7)] ∧
    writeMemoryLimit ⟨false, true, none, none⟩ 7 = MemOutcome.exited swapMissingMsg ∧
    writeMemoryLimit ⟨false, false, none, none⟩ 7 =
      MemOutcome.ok [("memory.limit_in_bytes", 7)] ∧
    writeMemoryLimit ⟨true, false, none, some ENOTSUP⟩ 7 = MemOutcome.exited swapRejectedMsg ∧
    writeMemoryLimit ⟨true, false, none, some 5⟩ 7 = MemOutcome.raised 5 := by
  refine ⟨?_, ?_, ?_, ?_, ?_⟩
  · exact (C8_write_memory_limit ⟨true, true, none, none⟩ 7).1 rfl rfl rfl
  · exact (C8_write_memory_limit ⟨false, true, none, none⟩ 7).2.1 rfl rfl rfl
  · exact (C8_write_memory_limit ⟨false, false, none, none⟩ 7).2.2.1 rfl rfl rfl
  · exact (C8_write_memory_limit ⟨true, false, none, some ENOTSUP⟩ 7).2.2.2.1 rfl rfl rfl
  · exact (C8_write_memory_limit ⟨true, false, none, some 5⟩ 7).2.2.2.2 5 rfl rfl rfl (by decide)

/-- C10: the `_remove_cgroup` helper (through which both `remove()` and
the deleting phase of `kill_all_tasks` perform every directory removal,
the latter modelled by the `Event.removeCall` events of the kill traces)
logs and returns without error for a path that no longer exists, asserts
emptiness via the group's `cgroup.procs` file so that a still-populated
group fails the assertion with no `rmdir` attempted, removes an existing
empty group with one `rmdir` call, retries a failed `rmdir` exactly once,
and after a second failure logs the error as a warning and returns
normally. -/
theorem C10_remove_cgroup_helper (env : RmEnv) :
    (env.pathExists = false → removeCgroup env = (RmOutcome.skippedMissing, 0)) ∧
    (∀ content, env.pathExists = true → env.procs = some content →
      hasTasksContent content = true → removeCgroup env = (RmOutcome.assertFailed, 0)) ∧
    (∀ content, env.pathExists = true → env.procs = some content →
      hasTasksContent content = false → env.rmdirErr1 = none →
      removeCgroup env = (RmOutcome.removed, 1)) ∧
    (∀ content e1, env.pathExists = true → env.procs = some content →
      hasTasksContent content = false → env.rmdirErr1 = some e1 → env.rmdirErr2 = none →
      removeCgroup env = (RmOutcome.removed, 2)) ∧
    (∀ content e1 e2, env.pathExists = true → env.procs = some content →
      hasTasksContent content = false → env.rmdirErr1 = some e1 → env.rmdirErr2 = some e2 →
      removeCgroup env = (RmOutcome.failedLogged e2, 2)) := by
  obtain ⟨pe, pr, r1, r2⟩ := env
  refine ⟨?_, ?_, ?_, ?_, ?_⟩ <;> simp only [] <;> intros <;> subst_vars <;>
    simp_all [removeCgroup]

/-- Witness for `C10_remove_cgroup_helper` at concrete environments:
a vanished path, a populated group, and the three `rmdir` outcomes. -/
theorem C10_witness :
    removeCgroup ⟨false, none, none, none⟩ = (RmOutcome.skippedMissing, 0) ∧
    removeCgroup ⟨true, some "1234\n".data, none, none⟩ = (RmOutcome.assertFailed, 0) ∧
    removeCgroup ⟨true, some "\n".data, none, none⟩ = (RmOutcome.removed, 1) ∧
    removeCgroup ⟨true, some "".data, some 16, none⟩ = (RmOutcome.removed, 2) ∧
    removeCgroup ⟨true, some "".data, some 16, some 16⟩ = (RmOutcome.failedLogged 16, 2) := by
  refine ⟨?_, ?_, ?_, ?_, ?_⟩
  · exact (C10_remove_cgroup_helper ⟨false, none, none, none⟩).1 rfl
  · exact (C10_remove_cgroup_helper ⟨true, some "1234\n".data, none, none⟩).2.1 "1234\n".data rfl rfl
      (by decide)
  · exact (C10_remove_cgroup_helper ⟨true, some "\n".data, none, none⟩).2.2.1 "\n".data rfl rfl
      (by decide) rfl
  · exact (C10_remove_cgroup_helper ⟨true, some "".data, some 16, none⟩).2.2.2.1 "".data 16 rfl
      rfl (by decide) rfl rfl
  · exact (C10_remove_cgroup_helper ⟨true, some "".data, some 16, some 16⟩).2.2.2.2 "".data 16 16 rfl rfl
      (by decide) rfl rfl

theorem lookup_cons_eq (s : String) (kv : String × String) (t : List (String × String)) :
    List.lookup s (kv :: t) = if s == kv.1 then some kv.2 else List.lookup s t := by
  rcases kv with ⟨k, v⟩
  cases hb : s == k <;> simp [List.lookup, hb]

theorem lookup_filter_ne (sub : String) (l : List (String × String)) :
    (l.filter (fun kv => kv.1 ≠ sub)).lookup sub = none := by
  induction l with
  | nil => rfl
  | cons kv t ih =>
    rw [List.filter_cons]
    by_cases h : kv.1 = sub
    · rw [if_neg (by simp [h])]
      exact ih
    · rw [if_pos (by simp [h]), lookup_cons_eq]
      rw [if_neg (by simp [beq_iff_eq]; exact fun he => h he.symm)]
      exact ih

theorem lookup_none_filter (s : String) (p : String × String → Bool)
    (l : List (String × String)) (h : l.lookup s = none) : (l.filter p).lookup s = none := by
  induction l with
  | nil => rfl
  | cons kv t ih =>
    rw [lookup_cons_eq] at h
    by_cases hb : (s == kv.1) = true
    · rw [if_pos hb] at h
      exact absurd h (by simp)
    · rw [if_neg hb] at h
      rw [List.filter_cons]
      by_cases hp : p kv = true
      · rw [if_pos hp, lookup_cons_eq, if_neg hb]
        exact ih h
      · rw [if_neg hp]
        exact ih h

/-- C5: `require_subsystem` returns true iff the controller is in the
live mapping and the create-and-remove probe succeeds; on a probe
failure the controller joins the unusable set, is recorded in the
denied map with its path when the errno is `EACCES`, leaves the live
mapping, and the path set is recomputed; and the call is idempotent:
after any failing call, a repeated call (with any probe) logs nothing,
changes nothing, and still returns false. -/
theorem C5_require_subsystem (probe : String → Option Nat) (st : CgState) (sub : String) :
    ((requireSubsystem probe st sub).1 = true ↔
      (st.subsystems.lookup sub).isSome ∧ probe sub = none) ∧
    (∀ path e, st.subsystems.lookup sub = some path → probe sub = some e →
      (requireSubsystem probe st sub).1 = false ∧
      (requireSubsystem probe st sub).2.2 = true ∧
      sub ∈ (requireSubsystem probe st sub).2.1.unusable ∧
      (requireSubsystem probe st sub).2.1.subsystems.lookup sub = none ∧
      (requireSubsystem probe st sub).2.1.paths =
        pathsOf (requireSubsystem probe st sub).2.1.subsystems ∧
      (e = EACCES → (requireSubsystem probe st sub).2.1.denied.lookup sub = some path)) ∧
    (∀ probe2 : String → Option Nat, (requireSubsystem probe st sub).1 = false →
      requireSubsystem probe2 (requireSubsystem probe st sub).2.1 sub =
        (false, (requireSubsystem probe st sub).2.1, false)) := by
  refine ⟨?_, ?_, ?_⟩
  · cases hl : st.subsystems.lookup sub with
    | none =>
      by_cases hu : sub ∈ st.unusable <;>
        simp [requireSubsystem, hl, hu]
    | some path =>
      cases hp : probe sub with
      | none => simp [requireSubsystem, hl, hp]
      | some e => simp [requireSubsystem, hl, hp]
  · intro path e hl hp
    simp only [requireSubsystem, hl, hp]
    refine ⟨trivial, trivial, ?_, ?_, trivial, ?_⟩
    · exact List.mem_insert_self sub st.unusable
    · simpa using lookup_filter_ne sub st.subsystems
    · intro he
      simp [he, dictInsert, List.lookup]
  · intro probe2 hr
    cases hl : st.subsystems.lookup sub with
    | none =>
      by_cases hu : sub ∈ st.unusable
      · simp [requireSubsystem, hl, hu]
      · have hu2 : sub ∈ st.unusable.insert sub := List.mem_insert_self sub st.unusable
        simp [requireSubsystem, hl, hu, hu2]
    | some path =>
      cases hp : probe sub with
      | none => simp [requireSubsystem, hl, hp] at hr
      | some e =>
        have hl2 : List.lookup sub
            (List.filter (fun kv => !decide (kv.1 = sub)) st.subsystems) = none := by
          simpa using lookup_filter_ne sub st.subsystems
        have hu2 : sub ∈ st.unusable.insert sub := List.mem_insert_self sub st.unusable
        simp [requireSubsystem, hl, hp, hl2, hu2]

/-- Witness for `C5_require_subsystem` at a concrete state: a probe
failing with `EACCES` demotes `memory`, and the repeated call is a
logged-nothing no-op returning false. -/
theorem C5_witness :
    (requireSubsystem (fun _ => some 13) ⟨[("memory", "/sys/m")], ["/sys/m"], [], []⟩
        "memory").1 = false ∧
    (requireSubsystem (fun _ => some 13) ⟨[("memory", "/sys/m")], ["/sys/m"], [], []⟩
        "memory").2.2 = true ∧
    (requireSubsystem (fun _ => some 13) ⟨[("memory", "/sys/m")], ["/sys/m"], [], []⟩
        "memory").2.1.subsystems.lookup "memory" = none ∧
    (requireSubsystem (fun _ => some 13) ⟨[("memory", "/sys/m")], ["/sys/m"], [], []⟩
        "memory").2.1.denied.lookup "memory" = some "/sys/m" ∧
    requireSubsystem (fun _ => none)
        (requireSubsystem (fun _ => some 13) ⟨[("memory", "/sys/m")], ["/sys/m"], [], []⟩
          "memory").2.1 "memory" =
      (false,
        (requireSubsystem (fun _ => some 13) ⟨[("memory", "/sys/m")], ["/sys/m"], [], []⟩
          "memory").2.1, false) := by
  have h := C5_require_subsystem (fun _ => some 13)
    ⟨[("memory", "/sys/m")], ["/sys/m"], [], []⟩ "memory"
  have hb := h.2.1 "/sys/m" 13 (by rfl) (by rfl)
  exact ⟨hb.1, hb.2.1, hb.2.2.2.1, hb.2.2.2.2.2 (by rfl), h.2.2 (fun _ => none) hb.1⟩

/-- C6: a freshly constructed instance satisfies the data-model
invariant (non-empty paths, unusable set disjoint from the live mapping,
derived path set equal to the recomputed distinct values), and
`require_subsystem` — the only operation that mutates a live instance —
preserves it. -/
theorem C6_state_invariant :
    (∀ m st, cgInit m = some st → CgInv st) ∧
    (∀ (probe : String → Option Nat) (st : CgState) (sub : String),
      CgInv st → CgInv (requireSubsystem probe st sub).2.1) := by
  constructor
  · intro m st hinit
    unfold cgInit at hinit
    by_cases hall : m.all (fun kv => kv.2 ≠ "")
    · rw [if_pos hall] at hinit
      obtain rfl := Option.some.inj hinit
      refine ⟨?_, ?_, rfl⟩
      · intro kv hkv
        have := List.all_eq_true.mp hall kv hkv
        simpa using this
      · intro s hs
        exact absurd hs (List.not_mem_nil s)
    · rw [if_neg hall] at hinit
      exact absurd hinit (by simp)
  · intro probe st sub hinv
    obtain ⟨h1, h2, h3⟩ := hinv
    cases hl : st.subsystems.lookup sub with
    | none =>
      by_cases hu : sub ∈ st.unusable
      · simpa [requireSubsystem, hl, hu] using ⟨h1, h2, h3⟩
      · simp only [requireSubsystem, hl, hu, if_neg]
        refine ⟨h1, ?_, h3⟩
        intro s hs
        rcases List.mem_insert_iff.mp hs with rfl | hs2
        · exact hl
        · exact h2 s hs2
    | some path =>
      cases hp : probe sub with
      | none => simpa [requireSubsystem, hl, hp] using ⟨h1, h2, h3⟩
      | some e =>
        simp only [requireSubsystem, hl, hp]
        refine ⟨?_, ?_, rfl⟩
        · intro kv hkv
          exact h1 kv (List.mem_of_mem_filter hkv)
        · intro s hs
          rcases List.mem_insert_iff.mp hs with rfl | hs2
          · exact lookup_filter_ne s st.subsystems
          · exact lookup_none_filter s _ st.subsystems (h2 s hs2)

/-- Witness for `C6_state_invariant`: the invariant holds for a concrete
freshly initialised instance and is preserved by a failing
`require_subsystem` call on it. -/
theorem C6_witness :
    CgInv ⟨[("memory", "/sys/m"), ("cpuset", "/sys/c")], ["/sys/m", "/sys/c"], [], []⟩ ∧
    CgInv (requireSubsystem (fun _ => some 13)
      ⟨[("memory", "/sys/m"), ("cpuset", "/sys/c")], ["/sys/m", "/sys/c"], [], []⟩
      "memory").2.1 := by
  have h1 := C6_state_invariant.1 [("memory", "/sys/m"), ("cpuset", "/sys/c")]
    ⟨[("memory", "/sys/m"), ("cpuset", "/sys/c")], ["/sys/m", "/sys/c"], [], []⟩ (by rfl)
  exact ⟨h1, C6_state_invariant.2 (fun _ => some 13) _ "memory" h1⟩

theorem mem_keys_iff_lookup_isSome (k : String) (l : List (String × String)) :
    k ∈ l.map Prod.fst ↔ (l.lookup k).isSome := by
  induction l with
  | nil => simp
  | cons kv t ih =>
    rw [List.map_cons, List.mem_cons, lookup_cons_eq]
    by_cases hb : k = kv.1
    · simp [hb]
    · have : (k == kv.1) = false := by simpa [beq_iff_eq] using hb
      simp [hb, this, ih]

/-- Projection of a `CreateAcc` to everything except the copy log. -/
def accCore (a : CreateAcc) : List (String × String) × List (String × String) × Nat :=
  (a.perSubsystem, a.perParent, a.counter)

/-- Loop invariant of `create_fresh_child_cgroup`: every processed
subsystem is mapped to the child created for its parent path, the
per-parent dict has exactly the distinct parents of the processed
subsystems as keys, and the copy log matches the created children. -/
def CreateInv (env : CopyEnv) (parentMap : List (String × String))
    (processed : List String) (acc : CreateAcc) : Prop :=
  (∀ s, (acc.perSubsystem.lookup s).isSome → s ∈ processed) ∧
  (∀ s ∈ processed, ∃ p c, parentMap.lookup s = some p ∧
    acc.perSubsystem.lookup s = some c ∧ acc.perParent.lookup p = some c) ∧
  (acc.perParent.map Prod.fst).Nodup ∧
  (∀ p, p ∈ acc.perParent.map Prod.fst ↔ ∃ s ∈ processed, parentMap.lookup s = some p) ∧
  acc.copied = acc.perParent.flatMap (fun pc => copyAttempts env pc.1 pc.2)

theorem createInv_congr (env : CopyEnv) (parentMap : List (String × String))
    (p1 p2 : List String) (acc : CreateAcc) (hm : ∀ x, x ∈ p1 ↔ x ∈ p2)
    (h : CreateInv env parentMap p1 acc) : CreateInv env parentMap p2 acc := by
  obtain ⟨h0, h1, h2, h3, h4⟩ := h
  refine ⟨fun s hs => (hm s).mp (h0 s hs), fun s hs => h1 s ((hm s).mpr hs), h2, ?_, h4⟩
  intro p
  rw [h3 p]
  constructor
  · rintro ⟨s, hs, hl⟩
    exact ⟨s, (hm s).mp hs, hl⟩
  · rintro ⟨s, hs, hl⟩
    exact ⟨s, (hm s).mpr hs, hl⟩

theorem createFreshStep_inv (env : CopyEnv) (parentMap : List (String × String))
    (processed : List String) (acc : CreateAcc) (sub parent : String)
    (hl : parentMap.lookup sub = some parent)
    (hinv : CreateInv env parentMap processed acc) :
    ∃ acc2, createFreshStep env parentMap acc sub = some acc2 ∧
      CreateInv env parentMap (sub :: processed) acc2 := by
  obtain ⟨h0, h1, h2, h3, h4⟩ := hinv
  have hred : createFreshStep env parentMap acc sub =
      (match acc.perParent.lookup parent with
       | some child => some { acc with perSubsystem := (sub, child) :: acc.perSubsystem }
       | none =>
         some { perSubsystem :=
                  (sub, parent ++ "/" ++ freshChildName acc.counter) :: acc.perSubsystem
                perParent :=
                  (parent, parent ++ "/" ++ freshChildName acc.counter) :: acc.perParent
                copied :=
                  copyAttempts env parent (parent ++ "/" ++ freshChildName acc.counter) ++
                    acc.copied
                counter := acc.counter + 1 }) := by
    unfold createFreshStep
    rw [hl]
  rw [hred]
  cases hpp : acc.perParent.lookup parent with
  | some child =>
    refine ⟨_, rfl, ?_, ?_, h2, ?_, h4⟩
    · intro s hs
      rw [lookup_cons_eq] at hs
      by_cases hb : (s == sub) = true
      · rw [beq_iff_eq] at hb
        rw [hb]
        exact List.mem_cons_self sub processed
      · rw [if_neg hb] at hs
        exact List.mem_cons_of_mem sub (h0 s hs)
    · intro s hs
      by_cases hb : s = sub
      · subst hb
        refine ⟨parent, child, hl, ?_, hpp⟩
        rw [lookup_cons_eq, if_pos (by simp)]
      · obtain ⟨p, c, hp1, hp2, hp3⟩ :=
          h1 s (by rcases List.mem_cons.mp hs with h | h; exact absurd h hb; exact h)
        refine ⟨p, c, hp1, ?_, hp3⟩
        rw [lookup_cons_eq, if_neg (by simpa [beq_iff_eq] using hb)]
        exact hp2
    · intro p
      rw [h3 p]
      constructor
      · rintro ⟨s, hs, hsl⟩
        exact ⟨s, List.mem_cons_of_mem sub hs, hsl⟩
      · rintro ⟨s, hs, hsl⟩
        rcases List.mem_cons.mp hs with rfl | hs2
        · rw [hl] at hsl
          obtain rfl := Option.some.inj hsl
          exact (h3 parent).mp
            ((mem_keys_iff_lookup_isSome parent acc.perParent).mpr (by rw [hpp]; simp))
        · exact ⟨s, hs2, hsl⟩
  | none =>
    refine ⟨_, rfl, ?_, ?_, ?_, ?_, ?_⟩
    · intro s hs
      rw [lookup_cons_eq] at hs
      by_cases hb : (s == sub) = true
      · rw [beq_iff_eq] at hb
        rw [hb]
        exact List.mem_cons_self sub processed
      · rw [if_neg hb] at hs
        exact List.mem_cons_of_mem sub (h0 s hs)
    · intro s hs
      by_cases hb : s = sub
      · subst hb
        refine ⟨parent, parent ++ "/" ++ freshChildName acc.counter, hl, ?_, ?_⟩
        · rw [lookup_cons_eq, if_pos (by simp)]
        · rw [lookup_cons_eq, if_pos (by simp)]
      · obtain ⟨p, c, hp1, hp2, hp3⟩ :=
          h1 s (by rcases List.mem_cons.mp hs with h | h; exact absurd h hb; exact h)
        have hpne : p ≠ parent := by
          intro he
          rw [he, hpp] at hp3
          exact Option.noConfusion hp3
        refine ⟨p, c, hp1, ?_, ?_⟩
        · rw [lookup_cons_eq, if_neg (by simpa [beq_iff_eq] using hb)]
          exact hp2
        · rw [lookup_cons_eq, if_neg (by simpa [beq_iff_eq] using hpne)]
          exact hp3
    · rw [List.map_cons]
      refine List.Nodup.cons ?_ h2
      rw [mem_keys_iff_lookup_isSome, hpp]
      simp
    · intro p
      rw [List.map_cons, List.mem_cons, h3 p]
      constructor
      · rintro (rfl | ⟨s, hs, hsl⟩)
        · exact ⟨sub, List.mem_cons_self sub processed, hl⟩
        · exact ⟨s, List.mem_cons_of_mem sub hs, hsl⟩
      · rintro ⟨s, hs, hsl⟩
        rcases List.mem_cons.mp hs with rfl | hs2
        · rw [hl] at hsl
          exact Or.inl (Option.some.inj hsl).symm
        · exact Or.inr ⟨s, hs2, hsl⟩
    · rw [List.flatMap_cons]
      exact congrArg _ h4

theorem optionSomeBind {α β : Type} (a : α) (f : α → Option β) :
    (some a >>= f : Option β) = f a := rfl

theorem createFreshGo_cons (env : CopyEnv) (parentMap : List (String × String))
    (s : String) (ss : List String) (acc : CreateAcc) :
    createFreshGo env parentMap (s :: ss) acc =
      createFreshStep env parentMap acc s >>= fun a => createFreshGo env parentMap ss a := rfl

theorem createFreshStep_lookup (env : CopyEnv) (parentMap : List (String × String))
    (acc : CreateAcc) (s parent : String) (hl : parentMap.lookup s = some parent) :
    createFreshStep env parentMap acc s =
      (match acc.perParent.lookup parent with
       | some child => some { acc with perSubsystem := (s, child) :: acc.perSubsystem }
       | none =>
         some { perSubsystem :=
                  (s, parent ++ "/" ++ freshChildName acc.counter) :: acc.perSubsystem
                perParent :=
                  (parent, parent ++ "/" ++ freshChildName acc.counter) :: acc.perParent
                copied :=
                  copyAttempts env parent (parent ++ "/" ++ freshChildName acc.counter) ++
                    acc.copied
                counter := acc.counter + 1 }) := by
  unfold createFreshStep
  rw [hl]

theorem createFreshStep_none (env : CopyEnv) (parentMap : List (String × String))
    (acc : CreateAcc) (s : String) (hl : parentMap.lookup s = none) :
    createFreshStep env parentMap acc s = none := by
  unfold createFreshStep
  rw [hl]

theorem createFreshGo_inv (env : CopyEnv) (parentMap : List (String × String)) :
    ∀ (subs : List String) (processed : List String) (acc : CreateAcc),
    (∀ s ∈ subs, (parentMap.lookup s).isSome) →
    CreateInv env parentMap processed acc →
    ∃ acc2, createFreshGo env parentMap subs acc = some acc2 ∧
      CreateInv env parentMap (subs ++ processed) acc2 := by
  intro subs
  induction subs with
  | nil =>
    intro processed acc _ hinv
    exact ⟨acc, rfl, by simpa using hinv⟩
  | cons s ss ih =>
    intro processed acc hall hinv
    have hs := hall s (List.mem_cons_self s ss)
    obtain ⟨parent, hparent⟩ := Option.isSome_iff_exists.mp hs
    obtain ⟨acc1, hstep, hinv1⟩ :=
      createFreshStep_inv env parentMap processed acc s parent hparent hinv
    obtain ⟨acc2, hgo, hinv2⟩ :=
      ih (s :: processed) acc1 (fun x hx => hall x (List.mem_cons_of_mem s hx)) hinv1
    refine ⟨acc2, ?_, ?_⟩
    · rw [createFreshGo_cons, hstep, optionSomeBind]
      exact hgo
    · refine createInv_congr env parentMap (ss ++ s :: processed) (s :: ss ++ processed) acc2
        ?_ hinv2
      intro x
      simp only [List.mem_append, List.mem_cons, List.cons_append]
      tauto

theorem createFreshGo_core (env1 env2 : CopyEnv) (parentMap : List (String × String)) :
    ∀ (subs : List String) (acc1 acc2 : CreateAcc), accCore acc1 = accCore acc2 →
    Option.map accCore (createFreshGo env1 parentMap subs acc1) =
      Option.map accCore (createFreshGo env2 parentMap subs acc2) := by
  intro subs
  induction subs with
  | nil =>
    intro acc1 acc2 h
    simpa [createFreshGo] using h
  | cons s ss ih =>
    intro acc1 acc2 h
    obtain ⟨hps, hpp, hc⟩ : acc1.perSubsystem = acc2.perSubsystem ∧
        acc1.perParent = acc2.perParent ∧ acc1.counter = acc2.counter := by
      simpa [accCore, Prod.ext_iff] using h
    rw [createFreshGo_cons, createFreshGo_cons]
    cases hl : parentMap.lookup s with
    | none =>
      rw [createFreshStep_none env1 parentMap acc1 s hl,
        createFreshStep_none env2 parentMap acc2 s hl]
      rfl
    | some parent =>
      rw [createFreshStep_lookup env1 parentMap acc1 s parent hl,
        createFreshStep_lookup env2 parentMap acc2 s parent hl, hpp]
      cases hpl : acc2.perParent.lookup parent with
      | some child =>
        rw [optionSomeBind, optionSomeBind]
        exact ih _ _ (by simp [accCore, hps, hpp, hc])
      | none =>
        rw [optionSomeBind, optionSomeBind]
        exact ih _ _ (by simp [accCore, hps, hpp, hc])

/-- C7: `create_fresh_child_cgroup` requires (by assertion) that every
requested controller is present; under that precondition it succeeds and
creates exactly one new directory per distinct parent path among the
requested controllers (the per-parent dict has one entry per distinct
parent), controllers aliasing the same parent path are all mapped to the
same shared child in the result, the inheritable `cpuset.cpus` /
`cpuset.mems` attributes are the files copied into each created child as
far as they exist, and copy failures are ignored: the resulting mapping,
created directories, and name counter are identical under any other copy
environment. -/
theorem C7_create_fresh_child (env env2 : CopyEnv) (parentMap : List (String × String))
    (subs : List String) :
    (¬ subs.all (fun s => (parentMap.lookup s).isSome) →
      createFreshChildCgroup env parentMap subs = none) ∧
    (subs.all (fun s => (parentMap.lookup s).isSome) →
      ∃ acc, createFreshChildCgroup env parentMap subs = some acc ∧
        acc.perParent.length = (subs.filterMap (fun s => parentMap.lookup s)).toFinset.card ∧
        (∀ s1 ∈ subs, ∀ s2 ∈ subs, parentMap.lookup s1 = parentMap.lookup s2 →
          acc.perSubsystem.lookup s1 = acc.perSubsystem.lookup s2 ∧
            (acc.perSubsystem.lookup s1).isSome) ∧
        acc.copied = acc.perParent.flatMap (fun pc => copyAttempts env pc.1 pc.2) ∧
        Option.map accCore (createFreshChildCgroup env2 parentMap subs) =
          some (accCore acc)) := by
  constructor
  · intro h
    unfold createFreshChildCgroup
    rw [if_neg h]
  · intro h
    have hall : ∀ s ∈ subs, (parentMap.lookup s).isSome := by
      intro s hs
      simpa using List.all_eq_true.mp h s hs
    have hinv0 : CreateInv env parentMap []
        { perSubsystem := [], perParent := [], copied := [], counter := 0 } := by
      refine ⟨?_, ?_, ?_, ?_, rfl⟩
      · intro s hs
        exact absurd hs (by simp [List.lookup])
      · intro s hs
        exact absurd hs (List.not_mem_nil s)
      · simp
      · intro p
        simp
    obtain ⟨acc, hgo, hinv⟩ := createFreshGo_inv env parentMap subs [] _ hall hinv0
    rw [List.append_nil] at hinv
    obtain ⟨h0, h1, h2, h3, h4⟩ := hinv
    have hrun : createFreshChildCgroup env parentMap subs = some acc := by
      unfold createFreshChildCgroup
      rw [if_pos h]
      exact hgo
    refine ⟨acc, hrun, ?_, ?_, h4, ?_⟩
    · have hlen : acc.perParent.length = (acc.perParent.map Prod.fst).length :=
        (List.length_map acc.perParent Prod.fst).symm
      have hfin : (acc.perParent.map Prod.fst).toFinset =
          (subs.filterMap (fun s => parentMap.lookup s)).toFinset := by
        apply Finset.ext
        intro p
        rw [List.mem_toFinset, List.mem_toFinset, h3 p, List.mem_filterMap]
      rw [hlen, ← List.toFinset_card_of_nodup h2, hfin]
    · intro s1 hs1 s2 hs2 heq
      obtain ⟨p1, c1, ha1, ha2, ha3⟩ := h1 s1 hs1
      obtain ⟨p2, c2, hb1, hb2, hb3⟩ := h1 s2 hs2
      have hp : p1 = p2 := by
        rw [ha1, hb1] at heq
        exact Option.some.inj heq
      subst hp
      have hc : c1 = c2 := by
        rw [ha3] at hb3
        exact Option.some.inj hb3
      rw [ha2, hb2, hc]
      simp
    · have hcore := createFreshGo_core env2 env parentMap subs
        { perSubsystem := [], perParent := [], copied := [], counter := 0 }
        { perSubsystem := [], perParent := [], copied := [], counter := 0 } rfl
      unfold createFreshChildCgroup
      rw [if_pos h]
      rw [hcore, hgo]
      rfl

def copyEnvW : CopyEnv := ⟨fun _ => true, fun _ => true⟩

def pmW : List (String × String) := [("memory", "/p"), ("cpuacct", "/p"), ("freezer", "/q")]

def subsW : List String := ["memory", "cpuacct", "freezer"]

/-- Witness for `C7_create_fresh_child`: three requested controllers of
which two share one backing parent path. -/
theorem C7_witness :
    ∃ acc, createFreshChildCgroup copyEnvW pmW subsW = some acc ∧
      acc.perParent.length = (subsW.filterMap (fun s => pmW.lookup s)).toFinset.card ∧
      (∀ s1 ∈ subsW, ∀ s2 ∈ subsW, pmW.lookup s1 = pmW.lookup s2 →
        acc.perSubsystem.lookup s1 = acc.perSubsystem.lookup s2 ∧
          (acc.perSubsystem.lookup s1).isSome) ∧
      acc.copied = acc.perParent.flatMap (fun pc => copyAttempts copyEnvW pc.1 pc.2) ∧
      Option.map accCore (createFreshChildCgroup copyEnvW pmW subsW) = some (accCore acc) :=
  (C7_create_fresh_child copyEnvW copyEnvW pmW subsW).2 (by decide)

/-! ### Characterisation of the kill loop -/

theorem sigOf_3j (j : Nat) : sigOf (3 * j) = Sig.kill := by
  unfold sigOf
  have h : (3 * j) % 3 = 0 := by omega
  rw [h]
  rfl

theorem sigOf_3j1 (j : Nat) : sigOf (3 * j + 1) = Sig.intr := by
  unfold sigOf
  have h : (3 * j + 1) % 3 = 1 := by omega
  rw [h]
  rfl

theorem sigOf_3j2 (j : Nat) : sigOf (3 * j + 2) = Sig.term := by
  unfold sigOf
  have h : (3 * j + 2) % 3 = 2 := by omega
  rw [h]
  rfl

theorem tryOf_eq (j r : Nat) (h : r < 3) : tryOf (3 * j + r) = j + 1 := by
  unfold tryOf
  omega

theorem killInner_nil (path : DirPath) (reads : Nat → ReadRes) (ee : Bool) (i k : Nat) :
    killInner path reads ee i [] k = ([], k, false) := rfl

theorem killInner_terminal (path : DirPath) (reads : Nat → ReadRes) (ee : Bool) (i k : Nat)
    (sg : Sig) (rest : List Sig) (h : Terminal (reads k)) :
    killInner path reads ee i (sg :: rest) k = (finalFormula path reads k, k + 1, true) := by
  rcases h with h | h <;> simp [killInner, h, finalFormula]

theorem killInner_step (path : DirPath) (reads : Nat → ReadRes) (i k : Nat)
    (sg : Sig) (rest : List Sig) (a : Nat) (as : List Nat)
    (h : reads k = ReadRes.pids (a :: as)) :
    killInner path reads true i (sg :: rest) k =
      ((a :: as).flatMap (fun p =>
        (if 1 < i then [Event.logLeftOver path p] else []) ++ [Event.signal path p sg]) ++
          Event.sleep ((i : ℚ) * (1 / 2)) :: (killInner path reads true i rest (k + 1)).1,
        (killInner path reads true i rest (k + 1)).2.1,
        (killInner path reads true i rest (k + 1)).2.2) := by
  simp [killInner, h]

theorem killOuter_succ (path : DirPath) (reads : Nat → ReadRes) (ee : Bool)
    (fuel i k : Nat) :
    killOuter path reads ee (fuel + 1) i k =
      (match killInner path reads ee i sigOrder k with
       | (evs, k2, r) =>
         if r then some evs
         else Option.map (fun rest => evs ++ rest) (killOuter path reads ee fuel (i + 1) k2)) :=
  rfl

theorem passFormula_pids (path : DirPath) (reads : Nat → ReadRes) (m : Nat)
    (a : Nat) (as : List Nat) (h : reads m = ReadRes.pids (a :: as)) :
    passFormula path reads m =
      (a :: as).flatMap (fun p =>
        (if 1 < tryOf m then [Event.logLeftOver path p] else []) ++
          [Event.signal path p (sigOf m)]) ++
        [Event.sleep ((tryOf m : ℚ) * (1 / 2))] := by
  simp [passFormula, h]

set_option maxHeartbeats 1000000 in
theorem killOuter_formula (path : DirPath) (reads : Nat → ReadRes) (n : Nat)
    (hpre : ∀ m, m < n → ∃ a as, reads m = ReadRes.pids (a :: as))
    (hterm : Terminal (reads n)) :
    ∀ fuel j : Nat, 3 * j ≤ n → n < 3 * (j + fuel) →
    killOuter path reads true fuel (j + 1) (3 * j) =
      some ((((List.range' (3 * j) (n - 3 * j)).map (passFormula path reads)).flatten) ++
        finalFormula path reads n) := by
  intro fuel
  induction fuel with
  | zero =>
    intro j h1 h2
    omega
  | succ fuel ih =>
    intro j h1 h2
    rw [killOuter_succ]
    by_cases hn : n < 3 * j + 3
    · have hd : n = 3 * j ∨ n = 3 * j + 1 ∨ n = 3 * j + 2 := by omega
      rcases hd with rfl | rfl | hd2
      · rw [show sigOrder = Sig.kill :: [Sig.intr, Sig.term] from rfl,
          killInner_terminal path reads true (j + 1) (3 * j) Sig.kill [Sig.intr, Sig.term] hterm]
        simp
      · obtain ⟨a, as, hk⟩ := hpre (3 * j) (by omega)
        rw [show sigOrder = Sig.kill :: [Sig.intr, Sig.term] from rfl,
          killInner_step path reads (j + 1) (3 * j) Sig.kill [Sig.intr, Sig.term] a as hk,
          killInner_terminal path reads true (j + 1) (3 * j + 1) Sig.intr [Sig.term] hterm]
        have hpass := passFormula_pids path reads (3 * j) a as hk
        have ht0 : tryOf (3 * j) = j + 1 := by unfold tryOf; omega
        rw [ht0, sigOf_3j j] at hpass
        simp [hpass, List.range'_succ]
      · obtain ⟨rfl⟩ : n = 3 * j + 2 := hd2
        obtain ⟨a0, as0, hk0⟩ := hpre (3 * j) (by omega)
        obtain ⟨a1, as1, hk1⟩ := hpre (3 * j + 1) (by omega)
        rw [show sigOrder = Sig.kill :: [Sig.intr, Sig.term] from rfl,
          killInner_step path reads (j + 1) (3 * j) Sig.kill [Sig.intr, Sig.term] a0 as0 hk0,
          show ([Sig.intr, Sig.term] : List Sig) = Sig.intr :: [Sig.term] from rfl,
          killInner_step path reads (j + 1) (3 * j + 1) Sig.intr [Sig.term] a1 as1 hk1,
          killInner_terminal path reads true (j + 1) (3 * j + 1 + 1) Sig.term []
            (by rw [show 3 * j + 1 + 1 = 3 * j + 2 from rfl]; exact hterm)]
        have hpass0 := passFormula_pids path reads (3 * j) a0 as0 hk0
        have ht0 : tryOf (3 * j) = j + 1 := by unfold tryOf; omega
        rw [ht0, sigOf_3j j] at hpass0
        have hpass1 := passFormula_pids path reads (3 * j + 1) a1 as1 hk1
        have ht1 : tryOf (3 * j + 1) = j + 1 := by unfold tryOf; omega
        rw [ht1, sigOf_3j1 j] at hpass1
        simp [hpass0, hpass1, List.range'_succ]
    · obtain ⟨a0, as0, hk0⟩ := hpre (3 * j) (by omega)
      obtain ⟨a1, as1, hk1⟩ := hpre (3 * j + 1) (by omega)
      obtain ⟨a2, as2, hk2⟩ := hpre (3 * j + 2) (by omega)
      rw [show sigOrder = Sig.kill :: [Sig.intr, Sig.term] from rfl,
        killInner_step path reads (j + 1) (3 * j) Sig.kill [Sig.intr, Sig.term] a0 as0 hk0,
        show ([Sig.intr, Sig.term] : List Sig) = Sig.intr :: [Sig.term] from rfl,
        killInner_step path reads (j + 1) (3 * j + 1) Sig.intr [Sig.term] a1 as1 hk1,
        show ([Sig.term] : List Sig) = Sig.term :: [] from rfl,
        killInner_step path reads (j + 1) (3 * j + 1 + 1) Sig.term [] a2 as2 (by exact hk2),
        killInner_nil]
      have hih := ih (j + 1) (by omega) (by omega)
      have hpass0 := passFormula_pids path reads (3 * j) a0 as0 hk0
      have ht0 : tryOf (3 * j) = j + 1 := by unfold tryOf; omega
      rw [ht0, sigOf_3j j] at hpass0
      have hpass1 := passFormula_pids path reads (3 * j + 1) a1 as1 hk1
      have ht1 : tryOf (3 * j + 1) = j + 1 := by unfold tryOf; omega
      rw [ht1, sigOf_3j1 j] at hpass1
      have hpass2 := passFormula_pids path reads (3 * j + 2) a2 as2 hk2
      have ht2 : tryOf (3 * j + 2) = j + 1 := by unfold tryOf; omega
      rw [ht2, sigOf_3j2 j] at hpass2
      have hih2 : killOuter path reads true fuel (j + 1 + 1) (3 * j + 1 + 1 + 1) =
          some ((List.map (passFormula path reads)
            (List.range' (3 * j + 1 + 1 + 1) (n - (3 * j + 1 + 1 + 1)))).flatten ++
              finalFormula path reads n) := hih
      have hsplit : List.range' (3 * j) (n - 3 * j) =
          3 * j :: (3 * j + 1) :: (3 * j + 2) :: List.range' (3 * j + 3) (n - (3 * j + 3)) := by
        have h3 : n - 3 * j = (n - (3 * j + 3)) + 3 := by omega
        rw [h3]
        rw [show (n - (3 * j + 3)) + 3 = ((n - (3 * j + 3)) + 2) + 1 from rfl, List.range'_succ]
        rw [show (n - (3 * j + 3)) + 2 = ((n - (3 * j + 3)) + 1) + 1 from rfl, List.range'_succ]
        rw [List.range'_succ]
      simp [hih2, hsplit, hpass0, hpass1, hpass2, List.append_assoc]

/-- Per-directory termination data for the `ensure_empty` loop: reads
before `stop d` find pids, the `stop d`-th read is empty or missing, and
the fuel covers `stop d` passes. -/
def StopSpec (reads : DirPath → Nat → ReadRes) (stop : DirPath → Nat) (fuel : Nat)
    (d : DirPath) : Prop :=
  (∀ m, m < stop d → ∃ a as, reads d m = ReadRes.pids (a :: as)) ∧
  Terminal (reads d (stop d)) ∧ stop d < 3 * fuel

theorem killAllTasksInCgroup_true_eq (path : DirPath) (reads : Nat → ReadRes) (n fuel : Nat)
    (hpre : ∀ m, m < n → ∃ a as, reads m = ReadRes.pids (a :: as))
    (hterm : Terminal (reads n)) (hfuel : n < 3 * fuel) :
    killAllTasksInCgroup path reads true fuel = some (loopFormula path reads n) := by
  unfold killAllTasksInCgroup loopFormula
  have h := killOuter_formula path reads n hpre hterm fuel 0 (by omega) (by omega)
  simpa [List.range_eq_range'] using h

theorem flatMapSingleton {α β : Type} (f : α → β) (l : List α) :
    l.flatMap (fun x => [f x]) = l.map f := by
  induction l with
  | nil => rfl
  | cons a as ih => simp_all

theorem killAllTasksInCgroup_false_eq (path : DirPath) (reads : Nat → ReadRes) (fuel : Nat)
    (hfuel : 1 ≤ fuel) :
    killAllTasksInCgroup path reads false fuel = some (freezeFormula path (reads 0)) := by
  obtain ⟨fuel2, rfl⟩ : ∃ f, fuel = f + 1 := ⟨fuel - 1, by omega⟩
  unfold killAllTasksInCgroup
  rw [killOuter_succ]
  cases h : reads 0 with
  | missing => simp [killInner, h, freezeFormula]
  | pids l =>
    cases l with
    | nil => simp [killInner, h, freezeFormula]
    | cons a as => simp [killInner, h, freezeFormula, flatMapSingleton]

theorem dirsKillTrace_cons (reads : DirPath → Nat → ReadRes) (delete : Bool) (fuel : Nat)
    (d : DirPath) (ds : List DirPath) :
    dirsKillTrace reads delete fuel (d :: ds) =
      killAllTasksInCgroup d (reads d) delete fuel >>= fun evs =>
        dirsKillTrace reads delete fuel ds >>= fun rest =>
          some (evs ++ (if delete then [Event.removeCall d] else []) ++ rest) := rfl

theorem dirsKillTrace_true_eq (reads : DirPath → Nat → ReadRes) (stop : DirPath → Nat)
    (fuel : Nat) :
    ∀ ds : List DirPath, (∀ d ∈ ds, StopSpec reads stop fuel d) →
    dirsKillTrace reads true fuel ds =
      some ((ds.map
        (fun d => loopFormula d (reads d) (stop d) ++ [Event.removeCall d])).flatten) := by
  intro ds
  induction ds with
  | nil => intro _; rfl
  | cons d rest ih =>
    intro h
    obtain ⟨hp, ht, hf⟩ := h d (List.mem_cons_self d rest)
    rw [dirsKillTrace_cons,
      killAllTasksInCgroup_true_eq d (reads d) (stop d) fuel hp ht hf, optionSomeBind,
      ih (fun x hx => h x (List.mem_cons_of_mem d hx)), optionSomeBind]
    simp

theorem dirsKillTrace_false_eq (reads : DirPath → Nat → ReadRes) (fuel : Nat)
    (hfuel : 1 ≤ fuel) :
    ∀ ds : List DirPath,
    dirsKillTrace reads false fuel ds =
      some ((ds.map (fun d => freezeFormula d (reads d 0))).flatten) := by
  intro ds
  induction ds with
  | nil => rfl
  | cons d rest ih =>
    rw [dirsKillTrace_cons, killAllTasksInCgroup_false_eq d (reads d) fuel hfuel,
      optionSomeBind, ih, optionSomeBind]
    simp

theorem recursiveKillTrace_eq (reads : DirPath → Nat → ReadRes) (delete : Bool) (fuel : Nat)
    (t : Tree) :
    recursiveKillTrace reads delete fuel t =
      dirsKillTrace reads delete fuel (procOrder t) >>= fun ds =>
        killAllTasksInCgroup t.path (reads t.path) delete fuel >>= fun root =>
          some (ds ++ root) := rfl

theorem recursiveKillTrace_true_eq (reads : DirPath → Nat → ReadRes) (stop : DirPath → Nat)
    (fuel : Nat) (t : Tree)
    (h : ∀ d ∈ procOrder t ++ [t.path], StopSpec reads stop fuel d) :
    recursiveKillTrace reads true fuel t = some (hierFormula reads stop t) := by
  obtain ⟨hp, ht, hf⟩ := h t.path (by simp)
  rw [recursiveKillTrace_eq,
    dirsKillTrace_true_eq reads stop fuel (procOrder t)
      (fun d hd => h d (by simp [hd])),
    optionSomeBind,
    killAllTasksInCgroup_true_eq t.path (reads t.path) (stop t.path) fuel hp ht hf,
    optionSomeBind]
  rfl

theorem recursiveKillTrace_false_eq (reads : DirPath → Nat → ReadRes) (fuel : Nat)
    (t : Tree) (hfuel : 1 ≤ fuel) :
    recursiveKillTrace reads false fuel t =
      some (((procOrder t).map (fun d => freezeFormula d (reads d 0))).flatten ++
        freezeFormula t.path (reads t.path 0)) := by
  rw [recursiveKillTrace_eq, dirsKillTrace_false_eq reads fuel hfuel (procOrder t),
    optionSomeBind, killAllTasksInCgroup_false_eq t.path (reads t.path) fuel hfuel,
    optionSomeBind]

theorem phase1_none (env : KillEnv) (fuel : Nat) (h : env.freezer = none) :
    phase1 env fuel = some [] := by
  unfold phase1
  rw [h]

theorem phase1_some (env : KillEnv) (fuel : Nat) (fp : DirPath)
    (h : env.freezer = some fp) (hfuel : 1 ≤ fuel) :
    phase1 env fuel = some (Event.writeFreezer "FROZEN" ::
      phase1Formula env.reads1 (env.tree fp) ++ [Event.writeFreezer "THAWED"]) := by
  simp only [phase1, h]
  rw [recursiveKillTrace_false_eq (fun p _ => env.reads1 p) fuel (env.tree fp) hfuel]
  rfl

theorem phase2Go_cons (env : KillEnv) (fuel : Nat) (r : DirPath) (rs : List DirPath) :
    phase2Go env fuel (r :: rs) =
      recursiveKillTrace env.reads2 true fuel (env.tree r) >>= fun tr =>
        phase2Go env fuel rs >>= fun rest => some (tr ++ rest) := rfl

theorem phase2Go_eq (env : KillEnv) (stop : DirPath → Nat) (fuel : Nat) :
    ∀ rs : List DirPath,
    (∀ r ∈ rs, ∀ d ∈ procOrder (env.tree r) ++ [(env.tree r).path],
      StopSpec env.reads2 stop fuel d) →
    phase2Go env fuel rs =
      some ((rs.map (fun r => hierFormula env.reads2 stop (env.tree r))).flatten) := by
  intro rs
  induction rs with
  | nil => intro _; rfl
  | cons r rest ih =>
    intro h
    rw [phase2Go_cons,
      recursiveKillTrace_true_eq env.reads2 stop fuel (env.tree r)
        (h r (List.mem_cons_self r rest)),
      optionSomeBind, ih (fun x hx => h x (List.mem_cons_of_mem r hx)), optionSomeBind]
    simp

theorem killAllTasks_eq (env : KillEnv) (fuel : Nat) :
    killAllTasks env fuel = phase1 env fuel >>= fun p1 =>
      phase2 env fuel >>= fun p2 => some (p1 ++ p2) := rfl

/-! ### Bottom-up ordering of the walk -/

def Tree.inductionOn (P : Tree → Prop)
    (h : ∀ p cs, (∀ c ∈ cs, P c) → P (Tree.node p cs)) : ∀ t, P t
  | .node p cs => h p cs (fun c hc => Tree.inductionOn P h c)
decreasing_by
  have h2 := List.sizeOf_lt_of_mem hc
  simp only [Tree.node.sizeOf_spec]
  omega

theorem procOrderOfChildren_eq (cs : List Tree) :
    procOrderOfChildren cs = (cs.map procOrder).flatten := by
  induction cs with
  | nil => rfl
  | cons c rest ih => simp [procOrderOfChildren, ih]

theorem procOrder_node (p : DirPath) (cs : List Tree) :
    procOrder (Tree.node p cs) = (cs.map procOrder).flatten ++ cs.map Tree.path := by
  show procOrderOfChildren cs ++ cs.map Tree.path = _
  rw [procOrderOfChildren_eq]

theorem allPathsOfChildren_eq (cs : List Tree) :
    allPathsOfChildren cs = (cs.map allPaths).flatten := by
  induction cs with
  | nil => rfl
  | cons c rest ih => simp [allPathsOfChildren, ih]

theorem allPaths_node (p : DirPath) (cs : List Tree) :
    allPaths (Tree.node p cs) = p :: (cs.map allPaths).flatten := by
  show p :: allPathsOfChildren cs = _
  rw [allPathsOfChildren_eq]

theorem subtreesOfChildren_eq (cs : List Tree) :
    subtreesOfChildren cs = (cs.map subtreesList).flatten := by
  induction cs with
  | nil => rfl
  | cons c rest ih => simp [subtreesOfChildren, ih]

theorem subtreesList_node (p : DirPath) (cs : List Tree) :
    subtreesList (Tree.node p cs) = Tree.node p cs :: (cs.map subtreesList).flatten := by
  show Tree.node p cs :: subtreesOfChildren cs = _
  rw [subtreesOfChildren_eq]

theorem allPaths_eq (t : Tree) : allPaths t = t.path :: strictDescPaths t := by
  cases t with
  | node p cs => rw [allPaths_node]; rfl

theorem mem_procOrder (t : Tree) : ∀ d, d ∈ procOrder t ↔ d ∈ strictDescPaths t := by
  induction t using Tree.inductionOn with
  | _ p cs ih =>
    intro d
    rw [procOrder_node]
    simp only [strictDescPaths, Tree.children, List.mem_append, List.mem_flatten,
      List.mem_map]
    constructor
    · rintro (⟨l, ⟨c, hc, rfl⟩, hd⟩ | ⟨c, hc, rfl⟩)
      · exact ⟨allPaths c, ⟨c, hc, rfl⟩, by
          rw [allPaths_eq]
          exact List.mem_cons_of_mem _ ((ih c hc d).mp hd)⟩
      · exact ⟨allPaths c, ⟨c, hc, rfl⟩, by rw [allPaths_eq]; exact List.mem_cons_self _ _⟩
    · rintro ⟨l, ⟨c, hc, rfl⟩, hd⟩
      rw [allPaths_eq] at hd
      rcases List.mem_cons.mp hd with rfl | hd2
      · exact Or.inr ⟨c, hc, rfl⟩
      · exact Or.inl ⟨procOrder c, ⟨c, hc, rfl⟩, (ih c hc d).mpr hd2⟩

theorem bottomUp_procOrder : ∀ t, BottomUp (procOrder t ++ [t.path]) t := by
  intro t
  induction t using Tree.inductionOn with
  | _ p cs ih =>
    intro s hs d hd
    rw [subtreesList_node] at hs
    rcases List.mem_cons.mp hs with rfl | hs2
    · have hd2 : d ∈ procOrder (Tree.node p cs) := by
        rw [mem_procOrder]
        exact hd
      exact List.Sublist.append (List.singleton_sublist.mpr hd2) (List.Sublist.refl _)
    · obtain ⟨c, hc, hsc⟩ : ∃ c ∈ cs, s ∈ subtreesList c := by
        simpa using hs2
      have hIH := ih c hc s hsc d hd
      refine List.Sublist.trans hIH ?_
      obtain ⟨l1, l2, rfl⟩ := List.append_of_mem hc
      rw [procOrder_node, List.map_append, List.map_cons, List.flatten_append,
        List.flatten_cons, List.map_append, List.map_cons]
      simp only [List.append_assoc, List.cons_append]
      refine List.Sublist.trans ?_ (List.sublist_append_right _ _)
      refine List.Sublist.append_left ?_ (procOrder c)
      refine List.Sublist.trans ?_ (List.sublist_append_right _ _)
      refine List.Sublist.trans ?_ (List.sublist_append_right _ _)
      exact List.Sublist.cons₂ _ (List.nil_sublist _)

theorem removeCall_not_mem_freezeFormula (d path : DirPath) (r : ReadRes) :
    Event.removeCall d ∉ freezeFormula path r := by
  cases r with
  | missing => simp [freezeFormula]
  | pids l => simp [freezeFormula]

theorem removeCall_not_mem_phase1Formula (d : DirPath) (reads1 : DirPath → ReadRes)
    (t : Tree) : Event.removeCall d ∉ phase1Formula reads1 t := by
  unfold phase1Formula
  intro h
  rcases List.mem_append.mp h with h1 | h2
  · rw [List.mem_flatten] at h1
    obtain ⟨l, hl, hm⟩ := h1
    rw [List.mem_map] at hl
    obtain ⟨x, _, rfl⟩ := hl
    exact removeCall_not_mem_freezeFormula d x (reads1 x) hm
  · exact removeCall_not_mem_freezeFormula d t.path (reads1 t.path) h2

theorem signal_mem_freezeFormula_kill (path : DirPath) (r : ReadRes) (q : DirPath)
    (pid : Nat) (s : Sig) (h : Event.signal q pid s ∈ freezeFormula path r) :
    s = Sig.kill := by
  cases r with
  | missing => simp [freezeFormula] at h
  | pids l =>
    simp only [freezeFormula] at h
    rw [List.mem_map] at h
    obtain ⟨x, _, heq⟩ := h
    injection heq with h1 h2 h3
    exact h3.symm

theorem signal_mem_phase1Formula_kill (reads1 : DirPath → ReadRes) (t : Tree)
    (q : DirPath) (pid : Nat) (s : Sig)
    (h : Event.signal q pid s ∈ phase1Formula reads1 t) : s = Sig.kill := by
  unfold phase1Formula at h
  rcases List.mem_append.mp h with h1 | h2
  · rw [List.mem_flatten] at h1
    obtain ⟨l, hl, hm⟩ := h1
    rw [List.mem_map] at hl
    obtain ⟨x, _, rfl⟩ := hl
    exact signal_mem_freezeFormula_kill x (reads1 x) q pid s hm
  · exact signal_mem_freezeFormula_kill t.path (reads1 t.path) q pid s h2

/-- C1: a `kill_all_tasks` trace is the freezer phase `pre` (which
contains no `_remove_cgroup` call) followed by, for every controller
path the instance owns, the phase-2 hierarchy trace `hierFormula`: every
descendant directory is visited bottom-up; each directory runs signal
passes (`passFormula`: the kill, interrupt and terminate signals in
rotation sent to every pid listed in the `tasks` file, each pass that
found at least one pid followed by a sleep of `attempt_number * 0.5`
time units) until the first pass that finds zero pids or a vanished
(logged, non-fatal) `tasks` file (`finalFormula`), after which the
now-empty directory is passed to `_remove_cgroup` and its loop stops;
the hierarchy root itself is emptied last and not removed. -/
theorem C1_kill_all_tasks_phase2 (env : KillEnv) (stop : DirPath → Nat) (fuel : Nat)
    (hfuel : 1 ≤ fuel)
    (hstop : ∀ r ∈ env.hierPaths, ∀ d ∈ procOrder (env.tree r) ++ [(env.tree r).path],
      StopSpec env.reads2 stop fuel d) :
    ∃ pre, killAllTasks env fuel =
        some (pre ++
          (env.hierPaths.map (fun r => hierFormula env.reads2 stop (env.tree r))).flatten) ∧
      (∀ d, Event.removeCall d ∉ pre) ∧
      (∀ r ∈ env.hierPaths,
        BottomUp (procOrder (env.tree r) ++ [(env.tree r).path]) (env.tree r)) := by
  have hph2 : phase2 env fuel =
      some ((env.hierPaths.map (fun r => hierFormula env.reads2 stop (env.tree r))).flatten) :=
    phase2Go_eq env stop fuel env.hierPaths hstop
  cases hfz : env.freezer with
  | none =>
    refine ⟨[], ?_, by simp, fun r _ => bottomUp_procOrder (env.tree r)⟩
    rw [killAllTasks_eq, phase1_none env fuel hfz, optionSomeBind, hph2, optionSomeBind]
  | some fp =>
    refine ⟨Event.writeFreezer "FROZEN" ::
        phase1Formula env.reads1 (env.tree fp) ++ [Event.writeFreezer "THAWED"], ?_, ?_,
      fun r _ => bottomUp_procOrder (env.tree r)⟩
    · rw [killAllTasks_eq, phase1_some env fuel fp hfz hfuel, optionSomeBind, hph2,
        optionSomeBind]
    · intro d hd
      rcases List.mem_cons.mp hd with h | h
      · exact Event.noConfusion h
      · rcases List.mem_append.mp h with h2 | h3
        · exact removeCall_not_mem_phase1Formula d env.reads1 (env.tree fp) h2
        · simp at h3

def envW1 : KillEnv :=
  { freezer := none
    hierPaths := [["r"]]
    tree := fun p => Tree.node p [Tree.node (p ++ ["c"]) []]
    reads1 := fun _ => ReadRes.pids []
    reads2 := fun d m => if d = ["r", "c"] ∧ m = 0 then ReadRes.pids [5] else ReadRes.pids [] }

def stopW1 : DirPath → Nat := fun d => if d = ["r", "c"] then 1 else 0

/-- Witness for `C1_kill_all_tasks_phase2`: one hierarchy with one child
group holding pid 5 on the first pass and empty afterwards. -/
theorem C1_witness :
    ∃ pre, killAllTasks envW1 1 =
        some (pre ++
          (envW1.hierPaths.map (fun r => hierFormula envW1.reads2 stopW1 (envW1.tree r))).flatten) ∧
      (∀ d, Event.removeCall d ∉ pre) ∧
      (∀ r ∈ envW1.hierPaths,
        BottomUp (procOrder (envW1.tree r) ++ [(envW1.tree r).path]) (envW1.tree r)) := by
  refine C1_kill_all_tasks_phase2 envW1 stopW1 1 (by decide) ?_
  intro r hr d hd
  have hr3 : r ∈ [(["r"] : DirPath)] := hr
  have hr2 : r = ["r"] := by simpa using hr3
  subst hr2
  have h3 : procOrder (envW1.tree ["r"]) ++ [(envW1.tree ["r"]).path] =
      [["r", "c"], ["r"]] := by decide
  rw [h3] at hd
  have hd2 : d = ["r", "c"] ∨ d = ["r"] := by simpa using hd
  rcases hd2 with rfl | rfl
  · refine ⟨?_, Or.inr (by decide), by decide⟩
    intro m hm
    rw [show stopW1 ["r", "c"] = 1 from by decide] at hm
    have hm0 : m = 0 := by omega
    subst hm0
    exact ⟨5, [], by decide⟩
  · refine ⟨?_, Or.inr (by decide), by decide⟩
    intro m hm
    rw [show stopW1 ["r"] = 0 from by decide] at hm
    exact absurd hm (Nat.not_lt_zero m)

/-- C2: within one `kill_all_tasks` invocation with a freezer subsystem,
the very first event is the `FROZEN` write, no `_remove_cgroup` call
occurs before the `THAWED` write (freezing strictly precedes every
deletion), the kill-and-delete phase runs for every controller hierarchy
in `self.paths` — not only the freezer one — and each hierarchy's
directories are processed bottom-up: every strict-descendant group
occurs in the processing order before its ancestor. -/
theorem C2_ordering (env : KillEnv) (stop : DirPath → Nat) (fuel : Nat) (fp : DirPath)
    (hfz : env.freezer = some fp) (hfuel : 1 ≤ fuel)
    (hstop : ∀ r ∈ env.hierPaths, ∀ d ∈ procOrder (env.tree r) ++ [(env.tree r).path],
      StopSpec env.reads2 stop fuel d) :
    ∃ mid, killAllTasks env fuel =
        some (Event.writeFreezer "FROZEN" :: (mid ++ Event.writeFreezer "THAWED" ::
          (env.hierPaths.map (fun r => hierFormula env.reads2 stop (env.tree r))).flatten)) ∧
      (∀ d, Event.removeCall d ∉ mid) ∧
      (∀ r ∈ env.hierPaths,
        BottomUp (procOrder (env.tree r) ++ [(env.tree r).path]) (env.tree r)) := by
  have hph2 : phase2 env fuel =
      some ((env.hierPaths.map (fun r => hierFormula env.reads2 stop (env.tree r))).flatten) :=
    phase2Go_eq env stop fuel env.hierPaths hstop
  refine ⟨phase1Formula env.reads1 (env.tree fp), ?_,
    fun d => removeCall_not_mem_phase1Formula d env.reads1 (env.tree fp),
    fun r _ => bottomUp_procOrder (env.tree r)⟩
  rw [killAllTasks_eq, phase1_some env fuel fp hfz hfuel, optionSomeBind, hph2,
    optionSomeBind]
  simp

def envW2 : KillEnv :=
  { freezer := some ["f"]
    hierPaths := [["f"], ["g"]]
    tree := fun p => Tree.node p [Tree.node (p ++ ["c"]) []]
    reads1 := fun d => if d = ["f", "c"] then ReadRes.pids [7] else ReadRes.pids []
    reads2 := fun _ _ => ReadRes.pids [] }

/-- Witness for `C2_ordering`: a freezer hierarchy plus a second owned
hierarchy, both walked and deleted in phase 2. -/
theorem C2_witness :
    ∃ mid, killAllTasks envW2 1 =
        some (Event.writeFreezer "FROZEN" :: (mid ++ Event.writeFreezer "THAWED" ::
          (envW2.hierPaths.map
            (fun r => hierFormula envW2.reads2 (fun _ => 0) (envW2.tree r))).flatten)) ∧
      (∀ d, Event.removeCall d ∉ mid) ∧
      (∀ r ∈ envW2.hierPaths,
        BottomUp (procOrder (envW2.tree r) ++ [(envW2.tree r).path]) (envW2.tree r)) := by
  refine C2_ordering envW2 (fun _ => 0) 1 ["f"] rfl (by decide) ?_
  intro r hr d hd
  refine ⟨?_, Or.inr rfl, (by decide : (0 : Nat) < 3 * 1)⟩
  intro m hm
  exact absurd hm (Nat.not_lt_zero m)

/-- Environment with a freezer hierarchy whose child group holds pid 7
during the freeze phase and is empty by phase 2. -/
def envC3 : KillEnv :=
  { freezer := some ["f"]
    hierPaths := [["f"]]
    tree := fun p => Tree.node p [Tree.node (p ++ ["c"]) []]
    reads1 := fun d => if d = ["f", "c"] then ReadRes.pids [7] else ReadRes.pids []
    reads2 := fun _ _ => ReadRes.pids [] }

/-- The full `kill_all_tasks` trace of `envC3`. -/
def trC3 : List Event :=
  [Event.writeFreezer "FROZEN", Event.signal ["f", "c"] 7 Sig.kill,
    Event.writeFreezer "THAWED", Event.removeCall ["f", "c"]]

/-- C3 counterexample: the freeze-phase kill of `kill_all_tasks` sends
only a single `SIGKILL` pass per directory — pid 7 is found in the
frozen child group and killed, but no interrupt or terminate signal is
ever sent to it, contradicting the claim that the interrupt and
terminate signals are sent (repeatedly) to every pid found. -/
theorem C3_counterexample :
    killAllTasks envC3 1 = some trC3 ∧
    Event.signal ["f", "c"] 7 Sig.kill ∈ trC3 ∧
    Event.signal ["f", "c"] 7 Sig.intr ∉ trC3 ∧
    Event.signal ["f", "c"] 7 Sig.term ∉ trC3 := by
  decide

/-- C3 (amended): when a freezer controller is present, `kill_all_tasks`
first writes `FROZEN` to the top-level freezer control file, then visits
every descendant directory bottom-up and, for each (and finally the
top-level group itself), sends the kill signal once to every process id
found in that group's `tasks` file — a single pass, with no interrupt or
terminate signals and without requiring the group to become empty or
deleting anything — and then writes `THAWED`. -/
theorem C3_freezer_phase (env : KillEnv) (fuel : Nat) (fp : DirPath) (tr2 : List Event)
    (hfz : env.freezer = some fp) (hfuel : 1 ≤ fuel)
    (hph2 : phase2 env fuel = some tr2) :
    killAllTasks env fuel = some ((Event.writeFreezer "FROZEN" ::
        phase1Formula env.reads1 (env.tree fp) ++ [Event.writeFreezer "THAWED"]) ++ tr2) ∧
    (∀ q pid s, Event.signal q pid s ∈ phase1Formula env.reads1 (env.tree fp) →
      s = Sig.kill) ∧
    (∀ d, Event.removeCall d ∉ phase1Formula env.reads1 (env.tree fp)) ∧
    BottomUp (procOrder (env.tree fp) ++ [(env.tree fp).path]) (env.tree fp) := by
  refine ⟨?_, ?_, fun d => removeCall_not_mem_phase1Formula d env.reads1 (env.tree fp),
    bottomUp_procOrder (env.tree fp)⟩
  · rw [killAllTasks_eq, phase1_some env fuel fp hfz hfuel, optionSomeBind, hph2,
      optionSomeBind]
  · exact fun q pid s h => signal_mem_phase1Formula_kill env.reads1 (env.tree fp) q pid s h

/-- Witness for `C3_freezer_phase` at the concrete environment of the
counterexample. -/
theorem C3_witness :
    killAllTasks envC3 1 = some ((Event.writeFreezer "FROZEN" ::
        phase1Formula envC3.reads1 (envC3.tree ["f"]) ++ [Event.writeFreezer "THAWED"]) ++
        [Event.removeCall ["f", "c"]]) ∧
    (∀ q pid s, Event.signal q pid s ∈ phase1Formula envC3.reads1 (envC3.tree ["f"]) →
      s = Sig.kill) ∧
    (∀ d, Event.removeCall d ∉ phase1Formula envC3.reads1 (envC3.tree ["f"])) ∧
    BottomUp (procOrder (envC3.tree ["f"]) ++ [(envC3.tree ["f"]).path]) (envC3.tree ["f"]) :=
  C3_freezer_phase envC3 1 ["f"] [Event.removeCall ["f", "c"]] rfl (by decide) (by decide)

end BenchExec
